import Mathlib

/-!
Verification of the SPAdes assembly accumulator: `SpadesTool.assemble` in
`tools/spades.py`.

The Python method is shallowly embedded as a pure interpreter.  External
behaviour is a parameter: `oracle n` describes what the n-th invocation of the
external `spades.py` process does (fail, or succeed producing a transcripts
file with given records, or succeed without producing the file — a known
SPAdes defect the source works around).  The file system is modelled as a
partial map from the file locations this code touches (the caller's
`contigs_out` path plus per-attempt scratch directories) to FASTA record
lists; FASTA files are modelled at record granularity, since the source only
ever concatenates whole files and filters whole records.

Helpers of this repository that live outside `tools/spades.py`
(`util.file.make_empty`, `util.file.concat`, `util.file.tmp_dir`,
`util.misc.make_seq`) are modelled from the spec; their doc comments say so.
-/

namespace SpadesVerify

/-- SPAdes invocation mode: `--rna` (rnaSPAdes) or `--meta` (metaSPAdes).
The source's `assert mode in ('rna', 'meta')` (line 79) is enforced by this
enumeration. -/
inductive Mode
  | rna
  | meta
deriving DecidableEq, Repr

/-- One FASTA record of a transcripts/contigs file: an identifier and the
length of its sequence (`len(r.seq)` is all the source ever inspects). -/
structure FastaRec where
  rid : Nat
  seqLen : Nat
deriving DecidableEq, Repr

/-- Contents of a FASTA file: the list of its records, in file order
(`Bio.SeqIO.parse`); byte concatenation of FASTA files is list append. -/
abbrev FileContent := List FastaRec

/-- The source's `Library` namedtuple: forward, backward and optional unpaired
read files.  A field is `none` when the path is absent/falsy or the file does
not exist, and `some sz` when the file exists with size `sz` bytes. -/
structure Library where
  reads_fwd : Option Nat
  reads_bwd : Option Nat
  reads_unpaired : Option Nat
deriving DecidableEq, Repr

/-- The source's `is_nonempty_file` (lines 86-87:
`f and os.path.isfile(f) and os.path.getsize(f) > 0`) applied to a library
read file. -/
def is_nonempty_file_read : Option Nat → Bool
  | none => false
  | some sz => decide (0 < sz)

/-- Base filename of a file inside one attempt's scratch directory. -/
inductive BaseName
  | contigsFasta
  | transcriptsFasta
  | hardFilteredTranscriptsFasta
  | transcriptsOverBp (minLen : Nat) (tag : Nat)
  | contigsCumul (tag : Nat)
deriving DecidableEq, Repr

/-- A file location: the caller-supplied `contigs_out` path, or a file inside
the scratch directory numbered `d` (one fresh directory per attempt). -/
inductive FName
  | contigsOut
  | inDir (d : Nat) (base : BaseName)
deriving DecidableEq, Repr

/-- The file system, restricted to the files this code reads or writes.
Library read files are carried inside `Library` instead, since the code only
ever queries their existence and size. -/
def FS : Type := FName → Option FileContent

/-- Writing a file (creating or overwriting it). -/
def fsWrite (fs : FS) (f : FName) (c : FileContent) : FS :=
  fun g => if g = f then some c else fs g

/-- Scratch directory containing a file, if any. -/
def dirOf : FName → Option Nat
  | FName.contigsOut => none
  | FName.inDir d _ => some d

/-- Modelled from the spec: `util.file.tmp_dir` tears the scratch directory
down when the attempt ends ("a freshly created, privately-scoped scratch
directory that is guaranteed removed when the attempt ends, success or
failure"), removing every file inside it. -/
def fsRemoveDir (fs : FS) (d : Nat) : FS :=
  fun g => if dirOf g = some d then none else fs g

/-- The source's `is_nonempty_file` applied to a path of the modelled file
system: the file exists and holds at least one record. -/
def is_nonempty_file_fs (fs : FS) (f : FName) : Bool :=
  match fs f with
  | none => false
  | some c => !c.isEmpty

/-- Modelled from the spec: `util.file.make_empty` creates or truncates a file
to empty contents. -/
def make_empty (fs : FS) (f : FName) : FS := fsWrite fs f []

/-- Modelled from the spec: `util.file.concat(inputFilePaths, outputFilePath,
append=True)` appends the byte-concatenation of the input files onto the
output file ("concatenate the current contigsOut plus this attempt's
transcripts into a new cumulative scratch file"). -/
def concatFiles (fs : FS) (inputs : List FName) (output : FName) : FS :=
  fsWrite fs output
    (((fs output).getD []) ++ (inputs.map (fun f => (fs f).getD [])).flatten)

/-- Modelled from the spec: `shutil.copyfile` overwrites the destination with
the source file's contents ("then copy that cumulative file back over
contigsOut"). -/
def copyfile (fs : FS) (src dst : FName) : FS :=
  fsWrite fs dst ((fs src).getD [])

/-- One token of the external `spades.py` command line (lines 102-114). -/
inductive Arg
  | modeFlag (m : Mode)
  | peFwd (num : Nat) (f : Option Nat)
  | peBwd (num : Nat) (f : Option Nat)
  | peSingle (num : Nat) (f : Option Nat)
  | trustedContigs
  | untrustedContigs
  | kArg (k : Nat)
  | opt (s : String)
  | memLimit (gb : Nat)
  | threadsArg (t : Nat)
  | outDir (d : Nat)
deriving DecidableEq, Repr

/-- The keyword parameters of `assemble` other than `libraries` and the output
path.  `contigs_trusted` / `contigs_untrusted` record only truthiness of the
supplied paths (the code never reads those files).  `threads` is the value
after the external `util.misc.sanitize_thread_count`; `spades_opts` is the
token list `shlex.split` produces. -/
structure Params where
  contigs_trusted : Bool
  contigs_untrusted : Bool
  kmer_sizes : Option (List Nat)
  mode : Mode
  always_succeed : Bool
  max_kmer_sizes : Nat
  filter_contigs : Bool
  min_contig_len : Nat
  mem_limit_gb : Nat
  threads : Nat
  spades_opts : List String
deriving Repr

/-- Behaviour of one external `spades.py` invocation, as observable by the
wrapper: the subprocess call raises (non-zero exit), or it returns zero having
written the contracted transcripts file with records `c` (`succeeds (some c)`),
or it returns zero without writing the file (`succeeds none`, the known defect
of lines 130-137). -/
inductive Outcome
  | fails
  | succeeds (transcripts : Option FileContent)
deriving DecidableEq, Repr

/-- Warning-level log events the source emits. -/
inductive Warning
  | noLibraries
  | spadesFailed (kmer : Nat)
  | missingTranscripts (kmer : Nat)
deriving DecidableEq, Repr

/-- Errors `assemble` can raise: the `assert lib_num < 9` of line 104, the
re-raised subprocess failure of line 128, and the `RuntimeError` of line 137
whose message names the kmer size
(`'SPAdes failed to make transcripts.fasta for k={}'`). -/
inductive SpadesError
  | libIndexOverflow
  | execFailed
  | missingTranscriptsFasta (kmer : Nat)
deriving DecidableEq, Repr

/-- Ghost record of one completed attempt, used only to state properties:
the kmer size, the invocation's outcome, the transcripts records as parsed
after the existence check (`raw`), the records actually concatenated onto
`contigs_out` (`appended`), the cumulative-counter tag of the rewritten
filtered file if `min_contig_len` filtering ran, and whether the tolerated
except-branch of lines 124-126 ran. -/
structure AttemptTrace where
  kmer : Nat
  outcome : Outcome
  raw : FileContent
  appended : FileContent
  filteredTag : Option Nat
  execFailed : Bool
deriving DecidableEq, Repr

/-- Program state threaded through the control loop.  `invocations`,
`warnings`, `attempts` and `history` are observation logs; `history` records
the contents of `contigs_out` right after each completed attempt. -/
@[ext] structure St where
  fs : FS
  nextDir : Nat
  invocations : List (List Arg)
  contigs_cumul_count : Nat
  warnings : List Warning
  attempts : List AttemptTrace
  history : List FileContent

/-- Modelled from the spec: `util.misc.make_seq` — a supplied kmer-size list is
iterated as given; an absent (`None`) value means one auto-selected size
("each 0/absent meaning auto-select"), written 0. -/
def make_seq : Option (List Nat) → List Nat
  | none => [0]
  | some ks => ks

/-- Expected transcripts filename (lines 116-119): `contigs.fasta` in meta
mode, else `transcripts.fasta`, with the `hard_filtered_` variant when
`filter_contigs` is set. -/
def transcriptsBase (mode : Mode) (filter_contigs : Bool) : BaseName :=
  if mode = Mode.meta then BaseName.contigsFasta
  else if filter_contigs then BaseName.hardFilteredTranscriptsFasta
  else BaseName.transcriptsFasta

/-- Command-line arguments contributed by one library (lines 105-108):
`--pe<n>-1`, `--pe<n>-2`, and `--pe<n>-s` when the unpaired file is
non-empty, where `n = lib_num + 1`. -/
def peArgs (lib_num : Nat) (lib : Library) : List Arg :=
  [Arg.peFwd (lib_num + 1) lib.reads_fwd, Arg.peBwd (lib_num + 1) lib.reads_bwd]
    ++ (if is_nonempty_file_read lib.reads_unpaired then
          [Arg.peSingle (lib_num + 1) lib.reads_unpaired]
        else [])

/-- The `for lib_num, lib in enumerate(...)` loop of lines 103-108, including
the `assert lib_num < 9` precondition of line 104. -/
def buildLibArgs : List Library → Nat → Except SpadesError (List Arg)
  | [], _ => Except.ok []
  | lib :: rest, lib_num =>
    if lib_num < 9 then
      match buildLibArgs rest (lib_num + 1) with
      | Except.ok more => Except.ok (peArgs lib_num lib ++ more)
      | Except.error e => Except.error e
    else Except.error SpadesError.libIndexOverflow

/-- The full argument list of one invocation (lines 102-114), in source
order: mode flag, library arguments, trusted/untrusted contigs, `-k`,
extra options, memory, threads, output directory. -/
def mkArgs (p : Params) (libArgs : List Arg) (kmer : Nat) (d : Nat) : List Arg :=
  Arg.modeFlag p.mode :: libArgs
    ++ (if p.contigs_trusted then [Arg.trustedContigs] else [])
    ++ (if p.contigs_untrusted then [Arg.untrustedContigs] else [])
    ++ (if kmer ≠ 0 then [Arg.kArg kmer] else [])
    ++ p.spades_opts.map Arg.opt
    ++ [Arg.memLimit p.mem_limit_gb, Arg.threadsArg p.threads, Arg.outDir d]

/-- Lines 139-151: optional `min_contig_len` filtering of the transcripts file
(parse, keep records with `len(r.seq) >= min_contig_len`, rewrite to
`transcripts_over_{L}bp.{count}.fasta`), then concatenation onto `contigs_out`
through the counter-tagged `contigs_cumul.{count}.fasta`, copied back over
`contigs_out`.  `outcome` and `execFailedFlag` are carried only into the ghost
trace. -/
def filterAndMerge (p : Params) (d : Nat) (tfname : FName) (kmer : Nat)
    (outcome : Outcome) (execFailedFlag : Bool) (st : St) : FName × St :=
  let parsed := (st.fs tfname).getD []
  let step1 : FName × FS × Option Nat :=
    if p.min_contig_len ≠ 0 then
      let transcripts_sans_short :=
        parsed.filter (fun r => decide (p.min_contig_len ≤ r.seqLen))
      let f2 := FName.inDir d
        (BaseName.transcriptsOverBp p.min_contig_len st.contigs_cumul_count)
      (f2, fsWrite st.fs f2 transcripts_sans_short, some st.contigs_cumul_count)
    else (tfname, st.fs, none)
  match step1 with
  | (tfname2, fs1, ftag) =>
    let contigs_cumul := FName.inDir d (BaseName.contigsCumul st.contigs_cumul_count)
    let fs2 := concatFiles fs1 [FName.contigsOut, tfname2] contigs_cumul
    let fs3 := copyfile fs2 contigs_cumul FName.contigsOut
    let appendedRecs := (fs1 tfname2).getD []
    let newOut := (fs3 FName.contigsOut).getD []
    let stOut : St := { st with
      fs := fs3
      contigs_cumul_count := st.contigs_cumul_count + 1
      attempts := st.attempts ++ [⟨kmer, outcome, parsed, appendedRecs, ftag, execFailedFlag⟩]
      history := st.history ++ [newOut] }
    (tfname2, stOut)

/-- One attempt: the body of the `with util.file.tmp_dir(...)` block
(lines 100-151).  Builds the argument list (which may trip the line-104
assertion), invokes the external process (`self.execute(args)`, whose
behaviour is `oracle` at the current invocation count; on success the external
tool writes — or, defectively, does not write — the contracted transcripts
file), applies the `always_succeed`-gated failure policy of lines 121-128,
the missing-file check of lines 130-137, and the filter/merge of
lines 139-151. -/
def attemptBody (p : Params) (qualified : List Library) (sel : Option Library)
    (kmer : Nat) (oracle : Nat → Outcome) (d : Nat) (st : St) :
    Except SpadesError FName × St :=
  match buildLibArgs (if p.mode = Mode.rna then qualified else sel.toList) 0 with
  | Except.error e => (Except.error e, st)
  | Except.ok libArgs =>
    let args := mkArgs p libArgs kmer d
    let tfname := FName.inDir d (transcriptsBase p.mode p.filter_contigs)
    let outcome := oracle st.invocations.length
    let st1 : St := { st with invocations := st.invocations ++ [args] }
    let afterExec : Except SpadesError (St × Bool) :=
      match outcome with
      | Outcome.fails =>
        if p.always_succeed then
          let stw : St := { st1 with
            fs := make_empty st1.fs tfname
            warnings := st1.warnings ++ [Warning.spadesFailed kmer] }
          Except.ok (stw, true)
        else Except.error SpadesError.execFailed
      | Outcome.succeeds produced =>
        match produced with
        | some c => Except.ok ({ st1 with fs := fsWrite st1.fs tfname c }, false)
        | none => Except.ok (st1, false)
    match afterExec with
    | Except.error e => (Except.error e, st1)
    | Except.ok (st2, execFailedFlag) =>
      let afterCheck : Except SpadesError St :=
        if (st2.fs tfname).isSome then Except.ok st2
        else if p.always_succeed then
          let stw : St := { st2 with
            fs := make_empty st2.fs tfname
            warnings := st2.warnings ++ [Warning.missingTranscripts kmer] }
          Except.ok stw
        else Except.error (SpadesError.missingTranscriptsFasta kmer)
      match afterCheck with
      | Except.error e => (Except.error e, st2)
      | Except.ok st3 =>
        match filterAndMerge p d tfname kmer outcome execFailedFlag st3 with
        | (tfname2, st4) => (Except.ok tfname2, st4)

/-- The per-library loop of line 99 (`for lib in (libraries if mode=='meta'
else (None,))`).  Each iteration runs in a fresh scratch directory that is
removed when the iteration ends, on success and on error alike.  Returns the
propagated error if any, the `this_kmer_size_succeeded` flag (line 153,
evaluated inside the `with` block, before teardown), and the last value of the
`transcripts_fname` variable. -/
def libLoop (p : Params) (qualified : List Library) (oracle : Nat → Outcome) (kmer : Nat) :
    List (Option Library) → Bool → Option FName → St →
    Except SpadesError Unit × Bool × Option FName × St
  | [], this_kmer_size_succeeded, lastT, st =>
    (Except.ok (), this_kmer_size_succeeded, lastT, st)
  | sel :: rest, this_kmer_size_succeeded, lastT, st =>
    let d := st.nextDir
    let stA : St := { st with nextDir := st.nextDir + 1 }
    match attemptBody p qualified sel kmer oracle d stA with
    | (Except.error e, stB) =>
      let stE : St := { stB with fs := fsRemoveDir stB.fs d }
      (Except.error e, this_kmer_size_succeeded, lastT, stE)
    | (Except.ok tfname, stB) =>
      let tkss := this_kmer_size_succeeded || is_nonempty_file_fs stB.fs tfname
      let stC : St := { stB with fs := fsRemoveDir stB.fs d }
      libLoop p qualified oracle kmer rest tkss (some tfname) stC

/-- The outer kmer-size loop (lines 96-160) with the early-stop policy of
lines 157-160: after the library loop, `is_nonempty_file(transcripts_fname)`
is re-evaluated — note that at this point the scratch directory holding
`transcripts_fname` has been removed — and on success `kmer_sizes_succeeded`
is incremented and compared against `max_kmer_sizes`. -/
def kmerLoop (p : Params) (qualified : List Library) (oracle : Nat → Outcome) :
    List Nat → Nat → St → Except SpadesError Unit × St
  | [], _, st => (Except.ok (), st)
  | kmer :: rest, kmer_sizes_succeeded, st =>
    let libSels : List (Option Library) :=
      if p.mode = Mode.meta then qualified.map some else [none]
    match libLoop p qualified oracle kmer libSels false none st with
    | (Except.error e, _, _, st2) => (Except.error e, st2)
    | (Except.ok _, _tkss, lastT, st2) =>
      let lastNonempty :=
        match lastT with
        | some tf => is_nonempty_file_fs st2.fs tf
        | none => false
      if lastNonempty then
        if p.max_kmer_sizes ≤ kmer_sizes_succeeded + 1 then (Except.ok (), st2)
        else kmerLoop p qualified oracle rest (kmer_sizes_succeeded + 1) st2
      else kmerLoop p qualified oracle rest kmer_sizes_succeeded st2

/-- `SpadesTool.assemble` (lines 47-163).  `oracle n` is the behaviour of the
n-th external invocation; `fs0` is the file system before the call (its
`contigs_out` entry is the file's prior contents).  Line 83 truncates
`contigs_out`; line 89 filters the libraries; if none qualify, a warning is
logged and the method returns (lines 90-92); otherwise the kmer loop runs. -/
def assemble (p : Params) (libraries : List Library) (oracle : Nat → Outcome)
    (fs0 : FS) : Except SpadesError Unit × St :=
  let st0 : St := { fs := make_empty fs0 FName.contigsOut
                    nextDir := 0
                    invocations := []
                    contigs_cumul_count := 0
                    warnings := []
                    attempts := []
                    history := [] }
  let qualified := libraries.filter (fun lib => is_nonempty_file_read lib.reads_fwd)
  if qualified.isEmpty then
    (Except.ok (), { st0 with warnings := st0.warnings ++ [Warning.noLibraries] })
  else
    kmerLoop p qualified oracle (make_seq p.kmer_sizes) 0 st0

/-! ### Specification-side definitions

Predicted shapes of states and run invariants, used to state and prove the
properties.  These are not part of the embedding of the source; they are the
vocabulary of the theorems below. -/

/-- Concatenation of everything the completed attempts appended, in attempt
order. -/
def flatApp (l : List AttemptTrace) : FileContent :=
  (l.map (fun a => a.appended)).flatten

/-- The transcripts-file records present after the failure handling and the
missing-file check: the produced records on a clean success, and the
synthesized empty file otherwise. -/
def attemptRaw : Outcome → FileContent
  | Outcome.fails => []
  | Outcome.succeeds none => []
  | Outcome.succeeds (some c) => c

/-- Records surviving the optional `min_contig_len` filter. -/
def attemptAppended (p : Params) (raw : FileContent) : FileContent :=
  if p.min_contig_len ≠ 0 then
    raw.filter (fun r => decide (p.min_contig_len ≤ r.seqLen))
  else raw

/-- Warnings one tolerated (non-aborting) attempt logs. -/
def attemptWarn (kmer : Nat) : Outcome → List Warning
  | Outcome.fails => [Warning.spadesFailed kmer]
  | Outcome.succeeds none => [Warning.missingTranscripts kmer]
  | Outcome.succeeds (some _) => []

/-- Whether the except-branch of lines 124-126 runs on a tolerated attempt. -/
def execFlag : Outcome → Bool
  | Outcome.fails => true
  | Outcome.succeeds _ => false

/-- The final value of `transcripts_fname` in one attempt using scratch
directory `d`, when the cumulative counter was `tag` at attempt start. -/
def finalTName (p : Params) (d : Nat) (tag : Nat) : FName :=
  if p.min_contig_len ≠ 0 then
    FName.inDir d (BaseName.transcriptsOverBp p.min_contig_len tag)
  else FName.inDir d (transcriptsBase p.mode p.filter_contigs)

/-- The state after one completed (non-aborting) attempt with library
arguments `libArgs`, when `contigs_out` held `out` before the attempt. -/
def stepSt (p : Params) (kmer : Nat) (libArgs : List Arg) (out : FileContent)
    (outcome : Outcome) (st : St) : St :=
  { st with
    fs := fsWrite st.fs FName.contigsOut (out ++ attemptAppended p (attemptRaw outcome))
    nextDir := st.nextDir + 1
    invocations := st.invocations ++ [mkArgs p libArgs kmer st.nextDir]
    contigs_cumul_count := st.contigs_cumul_count + 1
    warnings := st.warnings ++ attemptWarn kmer outcome
    attempts := st.attempts ++ [⟨kmer, outcome, attemptRaw outcome,
      attemptAppended p (attemptRaw outcome),
      (if p.min_contig_len ≠ 0 then some st.contigs_cumul_count else none),
      execFlag outcome⟩]
    history := st.history ++ [out ++ attemptAppended p (attemptRaw outcome)] }

/-- Warnings recording a tolerated invocation failure (`log.warning('SPAdes
failed ...')`, line 125). -/
def isFailWarn : Warning → Bool
  | Warning.spadesFailed _ => true
  | _ => false

/-- Run invariant, relating the observation logs and the `contigs_out` file.
It holds of every state the control loop reaches between attempts. -/
structure Core (p : Params) (oracle : Nat → Outcome) (st : St) : Prop where
  contigs : st.fs FName.contigsOut = some (flatApp st.attempts)
  noScratch : ∀ d b, st.fs (FName.inDir d b) = none
  histEq : st.history =
    (List.range st.attempts.length).map (fun n => flatApp (st.attempts.take (n + 1)))
  cumul : st.contigs_cumul_count = st.attempts.length
  tagsEq : st.attempts.map (fun a => a.filteredTag) =
    (List.range st.attempts.length).map
      (fun n => if p.min_contig_len ≠ 0 then some n else none)
  outcEq : st.attempts.map (fun a => a.outcome) =
    (List.range st.attempts.length).map oracle
  filt : ∀ a ∈ st.attempts, a.appended = attemptAppended p a.raw
  failRaw : ∀ a ∈ st.attempts, a.execFailed = true → a.raw = []
  warnFail : st.warnings.countP isFailWarn = st.attempts.countP (fun a => a.execFailed)
  clean : p.always_succeed = false →
    ∀ a ∈ st.attempts, ∃ c, a.outcome = Outcome.succeeds (some c)

/-- `Core` plus the invocation/attempt correspondence that holds whenever no
attempt is currently aborting. -/
structure Good (p : Params) (oracle : Nat → Outcome) (st : St)
    extends Core p oracle st : Prop where
  invoc : st.invocations.length = st.attempts.length

/-- What holds of the final state when the run raised `e`. -/
def ErrOut (p : Params) (oracle : Nat → Outcome) (qualified : List Library)
    (st : St) (e : SpadesError) : Prop :=
  Core p oracle st ∧
  match e with
  | SpadesError.libIndexOverflow =>
      p.mode = Mode.rna ∧ 9 < qualified.length ∧
        st.invocations.length = st.attempts.length
  | SpadesError.execFailed =>
      p.always_succeed = false ∧ st.invocations.length = st.attempts.length + 1 ∧
        oracle st.attempts.length = Outcome.fails
  | SpadesError.missingTranscriptsFasta _ =>
      p.always_succeed = false ∧ st.invocations.length = st.attempts.length + 1 ∧
        oracle st.attempts.length = Outcome.succeeds none

/-! ### Concrete inputs used by the closed evaluation theorems and witnesses -/

/-- Empty initial file system. -/
def fs0W : FS := fun _ => none

/-- A qualifying library (non-empty forward reads). -/
def libW1 : Library := ⟨some 10, some 10, none⟩

/-- A second qualifying library. -/
def libW2 : Library := ⟨some 20, some 20, none⟩

/-- A non-qualifying library (no forward reads file). -/
def libW0 : Library := ⟨none, none, none⟩

/-- Ten qualifying libraries. -/
def libs10W : List Library := List.replicate 10 libW1

/-- External tool always succeeds and produces one 100 bp record. -/
def oracleOkW : Nat → Outcome := fun _ => Outcome.succeeds (some [⟨0, 100⟩])

/-- External tool always fails. -/
def oracleFailW : Nat → Outcome := fun _ => Outcome.fails

/-- External tool always reports success without producing the file. -/
def oracleMissW : Nat → Outcome := fun _ => Outcome.succeeds none

/-- External tool fails exactly on the second invocation; otherwise it
produces one 30 bp and one 90 bp record. -/
def oracleFail1W : Nat → Outcome := fun n =>
  if n = 1 then Outcome.fails else Outcome.succeeds (some [⟨2 * n, 30⟩, ⟨2 * n + 1, 90⟩])

/-- Baseline parameters: rna mode, kmer sizes 21/33/55, stop after 2
successful kmer sizes, strict failures, no length filter. -/
def pBaseW : Params :=
  { contigs_trusted := false
    contigs_untrusted := false
    kmer_sizes := some [21, 33, 55]
    mode := Mode.rna
    always_succeed := false
    max_kmer_sizes := 2
    filter_contigs := false
    min_contig_len := 0
    mem_limit_gb := 8
    threads := 4
    spades_opts := [] }

/-- Meta mode, single kmer size 21. -/
def pMetaW : Params := { pBaseW with mode := Mode.meta, kmer_sizes := some [21] }

/-- Rna mode, single kmer size 21. -/
def pRnaW : Params := { pBaseW with kmer_sizes := some [21] }

/-- Rna mode with an empty kmer-size list. -/
def pEmptyKsW : Params := { pBaseW with kmer_sizes := some [] }

/-- Tolerant variant of the baseline. -/
def pTolerantW : Params := { pBaseW with always_succeed := true }

/-- Baseline with a 60 bp minimum contig length. -/
def pMinLenW : Params := { pBaseW with min_contig_len := 60 }

/-- External tool always succeeds, producing one 30 bp and one 90 bp record. -/
def oracleMixW : Nat → Outcome := fun n =>
  Outcome.succeeds (some [⟨2 * n, 30⟩, ⟨2 * n + 1, 90⟩])

/-- The state right after the initial truncation of `contigs_out`, on the
empty file system. -/
def st0W : St :=
  { fs := make_empty fs0W FName.contigsOut
    nextDir := 0
    invocations := []
    contigs_cumul_count := 0
    warnings := []
    attempts := []
    history := [] }

/-! ### Basic lemmas -/

theorem fsWrite_self (fs : FS) (f : FName) (c : FileContent) :
    fsWrite fs f c f = some c := by
  simp [fsWrite]

theorem fsWrite_ne (fs : FS) (f g : FName) (c : FileContent) (h : g ≠ f) :
    fsWrite fs f c g = fs g := by
  simp [fsWrite, h]

theorem contigsOut_ne_inDir (d : Nat) (b : BaseName) :
    FName.contigsOut ≠ FName.inDir d b := by
  intro h
  cases h

theorem inDir_ne_iff (d d2 : Nat) (b b2 : BaseName) :
    FName.inDir d b ≠ FName.inDir d2 b2 ↔ (d ≠ d2 ∨ b ≠ b2) := by
  constructor
  · intro h
    by_cases hd : d = d2
    · right
      intro hb
      exact h (by rw [hd, hb])
    · exact Or.inl hd
  · rintro (hd | hb) h
    · exact hd (by cases h; rfl)
    · exact hb (by cases h; rfl)

theorem fsRemoveDir_inDir (fs : FS) (d : Nat) (b : BaseName) :
    fsRemoveDir fs d (FName.inDir d b) = none := by
  simp [fsRemoveDir, dirOf]

theorem fsRemoveDir_contigsOut (fs : FS) (d : Nat) :
    fsRemoveDir fs d FName.contigsOut = fs FName.contigsOut := by
  simp [fsRemoveDir, dirOf]

theorem fsRemoveDir_other (fs : FS) (d d2 : Nat) (b : BaseName) (h : d2 ≠ d) :
    fsRemoveDir fs d (FName.inDir d2 b) = fs (FName.inDir d2 b) := by
  simp [fsRemoveDir, dirOf, h]

theorem is_nonempty_file_fs_of_none (fs : FS) (f : FName) (h : fs f = none) :
    is_nonempty_file_fs fs f = false := by
  simp [is_nonempty_file_fs, h]

theorem is_nonempty_file_fs_of_some (fs : FS) (f : FName) (c : FileContent)
    (h : fs f = some c) : is_nonempty_file_fs fs f = !c.isEmpty := by
  simp [is_nonempty_file_fs, h]

/-- Building library arguments succeeds when the index never reaches 9. -/
theorem buildLibArgs_ok : ∀ (l : List Library) (n : Nat), n + l.length ≤ 9 →
    ∃ a, buildLibArgs l n = Except.ok a := by
  intro l
  induction l with
  | nil => intro n _; exact ⟨[], rfl⟩
  | cons lib rest ih =>
    intro n hn
    have hlen : n + (rest.length + 1) ≤ 9 := by simpa [List.length_cons] using hn
    have hn9 : n < 9 := by omega
    have hrest : (n + 1) + rest.length ≤ 9 := by omega
    obtain ⟨a, ha⟩ := ih (n + 1) hrest
    exact ⟨peArgs n lib ++ a, by simp [buildLibArgs, hn9, ha]⟩

/-- Building library arguments trips the `assert lib_num < 9` when more than
nine libraries remain. -/
theorem buildLibArgs_overflow : ∀ (l : List Library) (n : Nat), 9 < n + l.length →
    n ≤ 9 → buildLibArgs l n = Except.error SpadesError.libIndexOverflow := by
  intro l
  induction l with
  | nil => intro n h9 hn; simp [List.length_nil] at h9; omega
  | cons lib rest ih =>
    intro n h9 hn
    by_cases hn9 : n < 9
    · have h9r : 9 < (n + 1) + rest.length := by
        simp [List.length_cons] at h9
        omega
      have := ih (n + 1) h9r (by omega)
      simp [buildLibArgs, hn9, this]
    · have : ¬ n < 9 := hn9
      simp [buildLibArgs, this]

/-- The only error argument-building can produce is the index overflow, and it
implies more than nine libraries (from index `n`). -/
theorem buildLibArgs_error : ∀ (l : List Library) (n : Nat) (e : SpadesError),
    buildLibArgs l n = Except.error e →
    e = SpadesError.libIndexOverflow ∧ 9 < n + l.length := by
  intro l
  induction l with
  | nil =>
    intro n e h
    simp [buildLibArgs] at h
  | cons lib rest ih =>
    intro n e h
    by_cases hn9 : n < 9
    · rcases hr : buildLibArgs rest (n + 1) with er | a
      · rw [buildLibArgs, if_pos hn9, hr] at h
        obtain ⟨he, hlen⟩ := ih (n + 1) er hr
        injection h with h2
        refine ⟨h2 ▸ he, ?_⟩
        simp only [List.length_cons]
        omega
      · rw [buildLibArgs, if_pos hn9, hr] at h
        cases h
    · rw [buildLibArgs, if_neg hn9] at h
      injection h with h2
      refine ⟨h2.symm, ?_⟩
      simp only [List.length_cons]
      omega

/-- Branch analysis of one attempt: when argument-building succeeds and the
scratch directory is fresh, `attemptBody` reduces to the four
outcome/`always_succeed` cases of lines 121-137, each ending (unless the
attempt aborts) in the filter/merge of lines 139-151. -/
theorem attemptBody_eq (p : Params) (qualified : List Library) (sel : Option Library)
    (kmer : Nat) (oracle : Nat → Outcome) (d : Nat) (st : St) (libArgs : List Arg)
    (hargs : buildLibArgs (if p.mode = Mode.rna then qualified else sel.toList) 0 =
      Except.ok libArgs)
    (hd : ∀ b, st.fs (FName.inDir d b) = none) :
    attemptBody p qualified sel kmer oracle d st =
      (let tfname := FName.inDir d (transcriptsBase p.mode p.filter_contigs)
       let st1 : St := { st with invocations := st.invocations ++ [mkArgs p libArgs kmer d] }
       match oracle st.invocations.length with
       | Outcome.fails =>
         if p.always_succeed then
           let stw : St := { st1 with
             fs := make_empty st1.fs tfname
             warnings := st1.warnings ++ [Warning.spadesFailed kmer] }
           (Except.ok (filterAndMerge p d tfname kmer Outcome.fails true stw).1,
            (filterAndMerge p d tfname kmer Outcome.fails true stw).2)
         else (Except.error SpadesError.execFailed, st1)
       | Outcome.succeeds none =>
         if p.always_succeed then
           let stw : St := { st1 with
             fs := make_empty st1.fs tfname
             warnings := st1.warnings ++ [Warning.missingTranscripts kmer] }
           (Except.ok (filterAndMerge p d tfname kmer (Outcome.succeeds none) false stw).1,
            (filterAndMerge p d tfname kmer (Outcome.succeeds none) false stw).2)
         else (Except.error (SpadesError.missingTranscriptsFasta kmer), st1)
       | Outcome.succeeds (some c) =>
         let stw : St := { st1 with fs := fsWrite st1.fs tfname c }
         (Except.ok (filterAndMerge p d tfname kmer (Outcome.succeeds (some c)) false stw).1,
          (filterAndMerge p d tfname kmer (Outcome.succeeds (some c)) false stw).2)) := by
  cases houtc : oracle st.invocations.length with
  | fails =>
    by_cases haS : p.always_succeed
    · simp [attemptBody, hargs, houtc, haS, make_empty, fsWrite]
    · simp [attemptBody, hargs, houtc, haS]
  | succeeds pr =>
    cases pr with
    | none =>
      by_cases haS : p.always_succeed
      · simp [attemptBody, hargs, houtc, haS, make_empty, fsWrite, hd]
      · simp [attemptBody, hargs, houtc, haS, hd]
    | some c =>
      simp [attemptBody, hargs, houtc, fsWrite]

/-- Characterization of the filter/merge step (lines 139-151): given the
transcripts file of the current scratch directory holding `raw` and
`contigs_out` holding `out`, it appends the (possibly filtered) records onto
`contigs_out`, bumps the cumulative counter, and records the attempt. -/
theorem filterAndMerge_spec (p : Params) (d : Nat) (base : BaseName) (kmer : Nat)
    (outcome : Outcome) (flag : Bool) (st : St) (raw out : FileContent)
    (hraw : st.fs (FName.inDir d base) = some raw)
    (hout : st.fs FName.contigsOut = some out)
    (hfresh : ∀ b2, b2 ≠ base → st.fs (FName.inDir d b2) = none)
    (hb1 : ∀ ml tg, base ≠ BaseName.transcriptsOverBp ml tg)
    (hb2 : ∀ tg, base ≠ BaseName.contigsCumul tg) :
    (filterAndMerge p d (FName.inDir d base) kmer outcome flag st).1 =
      (if p.min_contig_len ≠ 0 then
        FName.inDir d (BaseName.transcriptsOverBp p.min_contig_len st.contigs_cumul_count)
       else FName.inDir d base) ∧
    ((filterAndMerge p d (FName.inDir d base) kmer outcome flag st).2.fs FName.contigsOut =
      some (out ++ attemptAppended p raw)) ∧
    ((filterAndMerge p d (FName.inDir d base) kmer outcome flag st).2.fs
        ((filterAndMerge p d (FName.inDir d base) kmer outcome flag st).1) =
      some (attemptAppended p raw)) ∧
    (∀ d2 b2, d2 ≠ d →
      (filterAndMerge p d (FName.inDir d base) kmer outcome flag st).2.fs (FName.inDir d2 b2) =
        st.fs (FName.inDir d2 b2)) ∧
    (filterAndMerge p d (FName.inDir d base) kmer outcome flag st).2.nextDir = st.nextDir ∧
    (filterAndMerge p d (FName.inDir d base) kmer outcome flag st).2.invocations =
      st.invocations ∧
    (filterAndMerge p d (FName.inDir d base) kmer outcome flag st).2.contigs_cumul_count =
      st.contigs_cumul_count + 1 ∧
    (filterAndMerge p d (FName.inDir d base) kmer outcome flag st).2.warnings = st.warnings ∧
    (filterAndMerge p d (FName.inDir d base) kmer outcome flag st).2.attempts =
      st.attempts ++ [⟨kmer, outcome, raw, attemptAppended p raw,
        (if p.min_contig_len ≠ 0 then some st.contigs_cumul_count else none), flag⟩] ∧
    (filterAndMerge p d (FName.inDir d base) kmer outcome flag st).2.history =
      st.history ++ [out ++ attemptAppended p raw] := by
  have hcb : ∀ tg, st.fs (FName.inDir d (BaseName.contigsCumul tg)) = none :=
    fun tg => hfresh _ (Ne.symm (hb2 tg))
  have hob : ∀ ml tg, st.fs (FName.inDir d (BaseName.transcriptsOverBp ml tg)) = none :=
    fun ml tg => hfresh _ (Ne.symm (hb1 ml tg))
  have hb1R : ∀ ml tg, BaseName.transcriptsOverBp ml tg ≠ base :=
    fun ml tg => Ne.symm (hb1 ml tg)
  have hb2R : ∀ tg, BaseName.contigsCumul tg ≠ base := fun tg => Ne.symm (hb2 tg)
  by_cases hmin0 : p.min_contig_len = 0
  · refine ⟨?_, ?_, ?_, ?_, ?_, ?_, ?_, ?_, ?_, ?_⟩
    · simp [filterAndMerge, hmin0]
    · simp [filterAndMerge, concatFiles, copyfile, attemptAppended, fsWrite, hmin0,
        hraw, hout, hcb, hb2, hb2R]
    · simp [filterAndMerge, concatFiles, copyfile, attemptAppended, fsWrite, hmin0,
        hraw, hout, hcb, hb2, hb2R]
    · intro d2 b2 hd2
      simp [filterAndMerge, concatFiles, copyfile, fsWrite, hmin0, hd2]
    · simp [filterAndMerge, hmin0]
    · simp [filterAndMerge, hmin0]
    · simp [filterAndMerge, hmin0]
    · simp [filterAndMerge, hmin0]
    · simp [filterAndMerge, attemptAppended, fsWrite, hmin0, hraw, hb2, hb2R]
    · simp [filterAndMerge, concatFiles, copyfile, attemptAppended, fsWrite, hmin0,
        hraw, hout, hcb, hb2, hb2R]
  · refine ⟨?_, ?_, ?_, ?_, ?_, ?_, ?_, ?_, ?_, ?_⟩
    · simp [filterAndMerge, hmin0]
    · simp [filterAndMerge, concatFiles, copyfile, attemptAppended, fsWrite, hmin0,
        hraw, hout, hcb, hob, hb1, hb2, hb1R, hb2R]
    · simp [filterAndMerge, concatFiles, copyfile, attemptAppended, fsWrite, hmin0,
        hraw, hout, hcb, hob, hb1, hb2, hb1R, hb2R]
    · intro d2 b2 hd2
      simp [filterAndMerge, concatFiles, copyfile, fsWrite, hmin0, hd2]
    · simp [filterAndMerge, hmin0]
    · simp [filterAndMerge, hmin0]
    · simp [filterAndMerge, hmin0]
    · simp [filterAndMerge, hmin0]
    · simp [filterAndMerge, attemptAppended, fsWrite, hmin0, hraw, hb1, hb1R]
    · simp [filterAndMerge, concatFiles, copyfile, attemptAppended, fsWrite, hmin0,
        hraw, hout, hcb, hob, hb1, hb2, hb1R, hb2R]

theorem transcriptsBase_ne_overBp (m : Mode) (fc : Bool) (ml tg : Nat) :
    transcriptsBase m fc ≠ BaseName.transcriptsOverBp ml tg := by
  cases m <;> cases fc <;> simp [transcriptsBase]

theorem transcriptsBase_ne_cumul (m : Mode) (fc : Bool) (tg : Nat) :
    transcriptsBase m fc ≠ BaseName.contigsCumul tg := by
  cases m <;> cases fc <;> simp [transcriptsBase]

/-- After a non-aborting attempt whose post-invocation state `stw` holds the
(possibly synthesized) transcripts file, the merge, the line-153 flag update,
and the scratch-directory teardown produce exactly `stepSt`. -/
theorem libLoop_merge_step (p : Params) (qualified : List Library)
    (oracle : Nat → Outcome) (kmer : Nat) (rest : List (Option Library)) (tks : Bool)
    (st : St) (out : FileContent) (libArgs : List Arg) (outcome : Outcome) (stw : St)
    (hscr : ∀ d2 b, st.fs (FName.inDir d2 b) = none)
    (hout : st.fs FName.contigsOut = some out)
    (hfs : stw.fs = fsWrite st.fs
      (FName.inDir st.nextDir (transcriptsBase p.mode p.filter_contigs))
      (attemptRaw outcome))
    (hnd : stw.nextDir = st.nextDir + 1)
    (hinv : stw.invocations = st.invocations ++ [mkArgs p libArgs kmer st.nextDir])
    (hccc : stw.contigs_cumul_count = st.contigs_cumul_count)
    (hwarn : stw.warnings = st.warnings ++ attemptWarn kmer outcome)
    (hatt : stw.attempts = st.attempts)
    (hhist : stw.history = st.history) :
    libLoop p qualified oracle kmer rest
      (tks || is_nonempty_file_fs
        (filterAndMerge p st.nextDir
          (FName.inDir st.nextDir (transcriptsBase p.mode p.filter_contigs)) kmer outcome
          (execFlag outcome) stw).2.fs
        (filterAndMerge p st.nextDir
          (FName.inDir st.nextDir (transcriptsBase p.mode p.filter_contigs)) kmer outcome
          (execFlag outcome) stw).1)
      (some (filterAndMerge p st.nextDir
          (FName.inDir st.nextDir (transcriptsBase p.mode p.filter_contigs)) kmer outcome
          (execFlag outcome) stw).1)
      { (filterAndMerge p st.nextDir
          (FName.inDir st.nextDir (transcriptsBase p.mode p.filter_contigs)) kmer outcome
          (execFlag outcome) stw).2 with
        fs := fsRemoveDir (filterAndMerge p st.nextDir
          (FName.inDir st.nextDir (transcriptsBase p.mode p.filter_contigs)) kmer outcome
          (execFlag outcome) stw).2.fs st.nextDir } =
    libLoop p qualified oracle kmer rest
      (tks || !(attemptAppended p (attemptRaw outcome)).isEmpty)
      (some (finalTName p st.nextDir st.contigs_cumul_count))
      (stepSt p kmer libArgs out outcome st) := by
  have hraw2 : stw.fs (FName.inDir st.nextDir (transcriptsBase p.mode p.filter_contigs)) =
      some (attemptRaw outcome) := by
    rw [hfs]
    exact fsWrite_self _ _ _
  have hout2 : stw.fs FName.contigsOut = some out := by
    rw [hfs, fsWrite_ne _ _ _ _ (contigsOut_ne_inDir _ _)]
    exact hout
  have hfresh2 : ∀ b2, b2 ≠ transcriptsBase p.mode p.filter_contigs →
      stw.fs (FName.inDir st.nextDir b2) = none := by
    intro b2 hb
    rw [hfs, fsWrite_ne _ _ _ _ ((inDir_ne_iff _ _ _ _).mpr (Or.inr hb))]
    exact hscr _ _
  obtain ⟨e1, e2, e3, e4, e5, e6, e7, e8, e9, e10⟩ :=
    filterAndMerge_spec p st.nextDir (transcriptsBase p.mode p.filter_contigs) kmer outcome
      (execFlag outcome) stw (attemptRaw outcome) out hraw2 hout2 hfresh2
      (transcriptsBase_ne_overBp _ _) (transcriptsBase_ne_cumul _ _)
  have e1f : (filterAndMerge p st.nextDir
      (FName.inDir st.nextDir (transcriptsBase p.mode p.filter_contigs)) kmer outcome
      (execFlag outcome) stw).1 = finalTName p st.nextDir st.contigs_cumul_count := by
    rw [e1, hccc]
    simp [finalTName]
  have e3f : is_nonempty_file_fs
      (filterAndMerge p st.nextDir
        (FName.inDir st.nextDir (transcriptsBase p.mode p.filter_contigs)) kmer outcome
        (execFlag outcome) stw).2.fs
      (filterAndMerge p st.nextDir
        (FName.inDir st.nextDir (transcriptsBase p.mode p.filter_contigs)) kmer outcome
        (execFlag outcome) stw).1 =
      !(attemptAppended p (attemptRaw outcome)).isEmpty :=
    is_nonempty_file_fs_of_some _ _ _ e3
  have eSt : ({ (filterAndMerge p st.nextDir
      (FName.inDir st.nextDir (transcriptsBase p.mode p.filter_contigs)) kmer outcome
      (execFlag outcome) stw).2 with
        fs := fsRemoveDir (filterAndMerge p st.nextDir
          (FName.inDir st.nextDir (transcriptsBase p.mode p.filter_contigs)) kmer outcome
          (execFlag outcome) stw).2.fs st.nextDir } : St) =
      stepSt p kmer libArgs out outcome st := by
    refine St.ext ?_ ?_ ?_ ?_ ?_ ?_ ?_
    · funext g
      cases g with
      | contigsOut =>
        simp [stepSt, fsRemoveDir_contigsOut, e2, fsWrite]
      | inDir d2 b2 =>
        by_cases hd2 : d2 = st.nextDir
        · subst hd2
          simp [stepSt, fsRemoveDir_inDir, fsWrite, hscr]
        · simp [stepSt, fsRemoveDir, dirOf, hd2, e4 _ _ hd2, hfs, fsWrite]
    · simp [stepSt, e5, hnd]
    · simp [stepSt, e6, hinv]
    · simp [stepSt, e7, hccc]
    · simp [stepSt, e8, hwarn]
    · simp [stepSt, e9, hatt, hccc]
    · simp [stepSt, e10, hhist]
  rw [e3f, e1f, eSt]

/-- One non-aborting library-loop iteration: when the attempt's invocation is
tolerated (`always_succeed`) or cleanly succeeds, the iteration reduces to the
canonical `stepSt` continuation. -/
theorem libLoop_cons_ok (p : Params) (qualified : List Library) (oracle : Nat → Outcome)
    (kmer : Nat) (sel : Option Library) (rest : List (Option Library)) (tks : Bool)
    (lastT : Option FName) (st : St) (out : FileContent) (libArgs : List Arg)
    (hscr : ∀ d2 b, st.fs (FName.inDir d2 b) = none)
    (hout : st.fs FName.contigsOut = some out)
    (hargs : buildLibArgs (if p.mode = Mode.rna then qualified else sel.toList) 0 =
      Except.ok libArgs)
    (hok : p.always_succeed = true ∨
      ∃ c, oracle st.invocations.length = Outcome.succeeds (some c)) :
    libLoop p qualified oracle kmer (sel :: rest) tks lastT st =
      libLoop p qualified oracle kmer rest
        (tks || !(attemptAppended p (attemptRaw (oracle st.invocations.length))).isEmpty)
        (some (finalTName p st.nextDir st.contigs_cumul_count))
        (stepSt p kmer libArgs out (oracle st.invocations.length) st) := by
  have hdA : ∀ b, ({ st with nextDir := st.nextDir + 1 } : St).fs (FName.inDir st.nextDir b) =
      none := fun b => hscr st.nextDir b
  cases houtc : oracle st.invocations.length with
  | fails =>
    rcases hok with haS | ⟨c, hc⟩
    · simp only [libLoop]
      rw [attemptBody_eq _ _ _ _ _ _ _ _ hargs hdA]
      simp only [houtc, haS, if_true]
      exact libLoop_merge_step p qualified oracle kmer rest tks st out libArgs
        Outcome.fails _ hscr hout rfl rfl rfl rfl rfl rfl rfl
    · rw [houtc] at hc
      cases hc
  | succeeds pr =>
    cases pr with
    | none =>
      rcases hok with haS | ⟨c, hc⟩
      · simp only [libLoop]
        rw [attemptBody_eq _ _ _ _ _ _ _ _ hargs hdA]
        simp only [houtc, haS, if_true]
        exact libLoop_merge_step p qualified oracle kmer rest tks st out libArgs
          (Outcome.succeeds none) _ hscr hout rfl rfl rfl rfl rfl rfl rfl
      · rw [houtc] at hc
        simp at hc
    | some c =>
      simp only [libLoop]
      rw [attemptBody_eq _ _ _ _ _ _ _ _ hargs hdA]
      simp only [houtc]
      refine libLoop_merge_step p qualified oracle kmer rest tks st out libArgs
        (Outcome.succeeds (some c)) _ hscr hout rfl rfl rfl rfl ?_ rfl rfl
      simp [attemptWarn]

/-- Teardown of a fresh scratch directory restores the file system. -/
theorem fsRemoveDir_fresh (st : St) (hscr : ∀ d2 b, st.fs (FName.inDir d2 b) = none)
    (d : Nat) : fsRemoveDir st.fs d = st.fs := by
  funext g
  cases g with
  | contigsOut => exact fsRemoveDir_contigsOut _ _
  | inDir d2 b2 =>
    by_cases hd2 : d2 = d
    · subst hd2
      rw [fsRemoveDir_inDir, hscr]
    · exact fsRemoveDir_other _ _ _ _ hd2

/-- An invocation failure with `always_succeed = False` aborts the iteration:
the error propagates and only the invocation log grew. -/
theorem libLoop_cons_execfail (p : Params) (qualified : List Library)
    (oracle : Nat → Outcome) (kmer : Nat) (sel : Option Library)
    (rest : List (Option Library)) (tks : Bool) (lastT : Option FName) (st : St)
    (libArgs : List Arg)
    (hscr : ∀ d2 b, st.fs (FName.inDir d2 b) = none)
    (hargs : buildLibArgs (if p.mode = Mode.rna then qualified else sel.toList) 0 =
      Except.ok libArgs)
    (hfail : oracle st.invocations.length = Outcome.fails)
    (haS : p.always_succeed = false) :
    libLoop p qualified oracle kmer (sel :: rest) tks lastT st =
      (Except.error SpadesError.execFailed, tks, lastT,
       { st with
         nextDir := st.nextDir + 1
         invocations := st.invocations ++ [mkArgs p libArgs kmer st.nextDir] }) := by
  have hdA : ∀ b, ({ st with nextDir := st.nextDir + 1 } : St).fs (FName.inDir st.nextDir b) =
      none := fun b => hscr st.nextDir b
  simp only [libLoop]
  rw [attemptBody_eq _ _ _ _ _ _ _ _ hargs hdA]
  simp only [hfail, haS, Bool.false_eq_true, if_false]
  have hfsEq : fsRemoveDir st.fs st.nextDir = st.fs := fsRemoveDir_fresh st hscr _
  simp [hfsEq]

/-- A missing transcripts file with `always_succeed = False` aborts the
iteration with the kmer-size-naming error. -/
theorem libLoop_cons_missing (p : Params) (qualified : List Library)
    (oracle : Nat → Outcome) (kmer : Nat) (sel : Option Library)
    (rest : List (Option Library)) (tks : Bool) (lastT : Option FName) (st : St)
    (libArgs : List Arg)
    (hscr : ∀ d2 b, st.fs (FName.inDir d2 b) = none)
    (hargs : buildLibArgs (if p.mode = Mode.rna then qualified else sel.toList) 0 =
      Except.ok libArgs)
    (hmiss : oracle st.invocations.length = Outcome.succeeds none)
    (haS : p.always_succeed = false) :
    libLoop p qualified oracle kmer (sel :: rest) tks lastT st =
      (Except.error (SpadesError.missingTranscriptsFasta kmer), tks, lastT,
       { st with
         nextDir := st.nextDir + 1
         invocations := st.invocations ++ [mkArgs p libArgs kmer st.nextDir] }) := by
  have hdA : ∀ b, ({ st with nextDir := st.nextDir + 1 } : St).fs (FName.inDir st.nextDir b) =
      none := fun b => hscr st.nextDir b
  simp only [libLoop]
  rw [attemptBody_eq _ _ _ _ _ _ _ _ hargs hdA]
  simp only [hmiss, haS, Bool.false_eq_true, if_false]
  have hfsEq : fsRemoveDir st.fs st.nextDir = st.fs := fsRemoveDir_fresh st hscr _
  simp [hfsEq]

/-- A failing `assert lib_num < 9` aborts the iteration before any invocation:
only the scratch-directory counter grew. -/
theorem libLoop_cons_overflow (p : Params) (qualified : List Library)
    (oracle : Nat → Outcome) (kmer : Nat) (sel : Option Library)
    (rest : List (Option Library)) (tks : Bool) (lastT : Option FName) (st : St)
    (e : SpadesError)
    (hscr : ∀ d2 b, st.fs (FName.inDir d2 b) = none)
    (hargs : buildLibArgs (if p.mode = Mode.rna then qualified else sel.toList) 0 =
      Except.error e) :
    libLoop p qualified oracle kmer (sel :: rest) tks lastT st =
      (Except.error e, tks, lastT, { st with nextDir := st.nextDir + 1 }) := by
  simp only [libLoop, attemptBody, hargs]
  have hfsEq : fsRemoveDir st.fs st.nextDir = st.fs := fsRemoveDir_fresh st hscr _
  simp [hfsEq]

theorem flatApp_append (l1 l2 : List AttemptTrace) :
    flatApp (l1 ++ l2) = flatApp l1 ++ flatApp l2 := by
  simp [flatApp]

theorem flatApp_one (a : AttemptTrace) : flatApp [a] = a.appended := by
  simp [flatApp]

/-- One completed attempt preserves the run invariant. -/
theorem good_stepSt (p : Params) (oracle : Nat → Outcome) (kmer : Nat)
    (libArgs : List Arg) (st : St)
    (hG : Good p oracle st)
    (hclean : p.always_succeed = false →
      ∃ c, oracle st.invocations.length = Outcome.succeeds (some c)) :
    Good p oracle
      (stepSt p kmer libArgs (flatApp st.attempts) (oracle st.invocations.length) st) := by
  refine ⟨⟨?_, ?_, ?_, ?_, ?_, ?_, ?_, ?_, ?_, ?_⟩, ?_⟩
  · simp only [stepSt]
    rw [fsWrite_self]
    rw [flatApp_append, flatApp_one]
  · intro d2 b2
    simp only [stepSt]
    rw [fsWrite_ne _ _ _ _ (Ne.symm (contigsOut_ne_inDir _ _))]
    exact hG.noScratch d2 b2
  · simp only [stepSt]
    rw [hG.histEq]
    simp only [List.length_append, List.length_cons, List.length_nil, Nat.zero_add,
      List.range_succ, List.map_append, List.map_cons, List.map_nil]
    congr 1
    · refine List.map_congr_left ?_
      intro m hm
      rw [List.mem_range] at hm
      rw [List.take_append_of_le_length (by omega)]
    · rw [List.take_of_length_le (by simp), flatApp_append, flatApp_one]
  · simp only [stepSt]
    simp [hG.cumul]
  · simp only [stepSt]
    rw [List.map_append, hG.tagsEq]
    simp only [List.length_append, List.length_cons, List.length_nil, Nat.zero_add,
      List.range_succ, List.map_append, List.map_cons, List.map_nil]
    congr 1
    rw [hG.cumul]
  · simp only [stepSt]
    rw [List.map_append, hG.outcEq]
    simp only [List.length_append, List.length_cons, List.length_nil, Nat.zero_add,
      List.range_succ, List.map_append, List.map_cons, List.map_nil]
    congr 1
    rw [hG.invoc]
  · intro a ha
    simp only [stepSt] at ha
    rw [List.mem_append] at ha
    rcases ha with ha | ha
    · exact hG.filt a ha
    · rw [List.mem_singleton] at ha
      subst ha
      rfl
  · intro a ha
    simp only [stepSt] at ha
    rw [List.mem_append] at ha
    rcases ha with ha | ha
    · exact hG.failRaw a ha
    · rw [List.mem_singleton] at ha
      subst ha
      intro hf
      cases houtc : oracle st.invocations.length with
      | fails => simp [attemptRaw, houtc]
      | succeeds pr =>
        exfalso
        simp [execFlag, houtc] at hf
  · simp only [stepSt]
    rw [List.countP_append, List.countP_append, hG.warnFail]
    congr 1
    cases oracle st.invocations.length with
    | fails => rfl
    | succeeds pr => cases pr <;> rfl
  · intro haS a ha
    simp only [stepSt] at ha
    rw [List.mem_append] at ha
    rcases ha with ha | ha
    · exact hG.clean haS a ha
    · rw [List.mem_singleton] at ha
      subst ha
      exact hclean haS
  · simp only [stepSt]
    simp [hG.invoc]

theorem finalTName_inDir (p : Params) (d tag : Nat) :
    ∃ bb, finalTName p d tag = FName.inDir d bb := by
  unfold finalTName
  by_cases hmin : p.min_contig_len ≠ 0
  · rw [if_pos hmin]
    exact ⟨_, rfl⟩
  · rw [if_neg hmin]
    exact ⟨_, rfl⟩

/-- Library-loop specification: starting from an invariant state, the loop
either completes every selection, adding one attempt per selection and
preserving the invariant, or propagates an error with the matching final
state. -/
theorem libLoop_spec (p : Params) (qualified : List Library) (oracle : Nat → Outcome)
    (kmer : Nat) :
    ∀ (sels : List (Option Library)) (tks : Bool) (lastT : Option FName) (st : St),
    Good p oracle st →
    (∀ tf, lastT = some tf → ∃ dd bb, tf = FName.inDir dd bb) →
    ((∃ u tks2 lastT2 st2,
        libLoop p qualified oracle kmer sels tks lastT st = (Except.ok u, tks2, lastT2, st2) ∧
        Good p oracle st2 ∧
        st2.attempts.length = st.attempts.length + sels.length ∧
        (∀ tf, lastT2 = some tf → ∃ dd bb, tf = FName.inDir dd bb)) ∨
     (∃ e tks2 lastT2 st2,
        libLoop p qualified oracle kmer sels tks lastT st = (Except.error e, tks2, lastT2, st2) ∧
        ErrOut p oracle qualified st2 e)) := by
  intro sels
  induction sels with
  | nil =>
    intro tks lastT st hG hlast
    left
    exact ⟨(), tks, lastT, st, by simp [libLoop], hG, by simp, hlast⟩
  | cons sel rest ih =>
    intro tks lastT st hG hlast
    have hcore : Core p oracle st := hG.toCore
    rcases hbuild : buildLibArgs (if p.mode = Mode.rna then qualified else sel.toList) 0
      with e | la
    · obtain ⟨he, hlen⟩ := buildLibArgs_error _ _ _ hbuild
      subst he
      rw [libLoop_cons_overflow p qualified oracle kmer sel rest tks lastT st _
        hG.noScratch hbuild]
      right
      refine ⟨_, tks, lastT, _, rfl, ?_, ?_⟩
      · exact ⟨hG.contigs, hG.noScratch, hG.histEq, hG.cumul, hG.tagsEq, hG.outcEq,
          hG.filt, hG.failRaw, hG.warnFail, hG.clean⟩
      · have hmode : p.mode = Mode.rna ∧ 9 < qualified.length := by
          cases hm : p.mode with
          | rna =>
            rw [hm] at hlen
            simp at hlen
            exact ⟨rfl, by omega⟩
          | meta =>
            exfalso
            rw [hm] at hlen
            simp at hlen
            cases sel <;> simp [Option.toList] at hlen
        exact ⟨hmode.1, hmode.2, hG.invoc⟩
    · by_cases hok : p.always_succeed = true ∨
        ∃ c, oracle st.invocations.length = Outcome.succeeds (some c)
      · rw [libLoop_cons_ok p qualified oracle kmer sel rest tks lastT st
          (flatApp st.attempts) la hG.noScratch hG.contigs hbuild hok]
        have hclean : p.always_succeed = false →
            ∃ c, oracle st.invocations.length = Outcome.succeeds (some c) := by
          intro haS
          rcases hok with h | h
          · rw [haS] at h
            cases h
          · exact h
        have hGood2 : Good p oracle
            (stepSt p kmer la (flatApp st.attempts) (oracle st.invocations.length) st) :=
          good_stepSt p oracle kmer la st hG hclean
        have hlast2 : ∀ tf, (some (finalTName p st.nextDir st.contigs_cumul_count)) = some tf →
            ∃ dd bb, tf = FName.inDir dd bb := by
          intro tf htf
          injection htf with htf
          obtain ⟨bb, hbb⟩ := finalTName_inDir p st.nextDir st.contigs_cumul_count
          exact ⟨st.nextDir, bb, by rw [← htf, hbb]⟩
        rcases ih _ _ _ hGood2 hlast2 with
          ⟨u, tks2, lastT2, st2, heq, hG2, hlen2, hl2⟩ | ⟨e, tks2, lastT2, st2, heq, herr⟩
        · left
          refine ⟨u, tks2, lastT2, st2, heq, hG2, ?_, hl2⟩
          rw [hlen2]
          simp only [stepSt, List.length_append, List.length_cons, List.length_nil]
          omega
        · right
          exact ⟨e, tks2, lastT2, st2, heq, herr⟩
      · push_neg at hok
        obtain ⟨haS2, hnc⟩ := hok
        have haS : p.always_succeed = false := by
          revert haS2
          cases p.always_succeed <;> simp
        cases houtc : oracle st.invocations.length with
        | fails =>
          rw [libLoop_cons_execfail p qualified oracle kmer sel rest tks lastT st la
            hG.noScratch hbuild houtc haS]
          right
          refine ⟨_, tks, lastT, _, rfl, ?_, haS, ?_, ?_⟩
          · exact ⟨hG.contigs, hG.noScratch, hG.histEq, hG.cumul, hG.tagsEq, hG.outcEq,
              hG.filt, hG.failRaw, hG.warnFail, hG.clean⟩
          · simp [hG.invoc]
          · show oracle st.attempts.length = Outcome.fails
            rw [← hG.invoc]
            exact houtc
        | succeeds pr =>
          cases pr with
          | none =>
            rw [libLoop_cons_missing p qualified oracle kmer sel rest tks lastT st la
              hG.noScratch hbuild houtc haS]
            right
            refine ⟨_, tks, lastT, _, rfl, ?_, haS, ?_, ?_⟩
            · exact ⟨hG.contigs, hG.noScratch, hG.histEq, hG.cumul, hG.tagsEq, hG.outcEq,
                hG.filt, hG.failRaw, hG.warnFail, hG.clean⟩
            · simp [hG.invoc]
            · show oracle st.attempts.length = Outcome.succeeds none
              rw [← hG.invoc]
              exact houtc
          | some c => exact absurd houtc (hnc c)

/-- Kmer-loop specification.  Note the totals: because the line-157 check
re-reads `transcripts_fname` after its scratch directory was removed, the
check is always false, the early-stop counter never advances, and a
non-aborting run performs one attempt per (kmer size × library selection)
pair for the whole list. -/
theorem kmerLoop_spec (p : Params) (qualified : List Library) (oracle : Nat → Outcome) :
    ∀ (ks : List Nat) (succ : Nat) (st : St), Good p oracle st →
    ((∃ u st2, kmerLoop p qualified oracle ks succ st = (Except.ok u, st2) ∧
        Good p oracle st2 ∧
        st2.attempts.length = st.attempts.length +
          ks.length * (if p.mode = Mode.meta then qualified.length else 1)) ∨
     (∃ e st2, kmerLoop p qualified oracle ks succ st = (Except.error e, st2) ∧
        ErrOut p oracle qualified st2 e)) := by
  intro ks
  induction ks with
  | nil =>
    intro succ st hG
    left
    exact ⟨(), st, by simp [kmerLoop], hG, by simp⟩
  | cons kmer rest ih =>
    intro succ st hG
    have hsels : (if p.mode = Mode.meta then qualified.map some else [none]).length =
        (if p.mode = Mode.meta then qualified.length else 1) := by
      by_cases hm : p.mode = Mode.meta <;> simp [hm]
    rcases libLoop_spec p qualified oracle kmer
        (if p.mode = Mode.meta then qualified.map some else [none]) false none st hG
        (by intro tf htf; cases htf) with
      ⟨u, tks2, lastT2, st2, heq, hG2, hlen2, hl2⟩ | ⟨e, tks2, lastT2, st2, heq, herr⟩
    · rw [hsels] at hlen2
      have hcheck : ∀ (x : Option FName),
          (∀ tf, x = some tf → ∃ dd bb, tf = FName.inDir dd bb) →
          (match x with
           | some tf => is_nonempty_file_fs st2.fs tf
           | none => false) = false := by
        intro x hx
        cases x with
        | none => rfl
        | some tf =>
          obtain ⟨dd, bb, htf⟩ := hx tf rfl
          subst htf
          exact is_nonempty_file_fs_of_none _ _ (hG2.noScratch dd bb)
      simp only [kmerLoop, heq, hcheck lastT2 hl2, Bool.false_eq_true, if_false]
      rcases ih succ st2 hG2 with ⟨u2, st3, heq3, hG3, hlen3⟩ | ⟨e2, st3, heq3, herr3⟩
      · left
        refine ⟨u2, st3, heq3, hG3, ?_⟩
        rw [hlen3, hlen2, List.length_cons]
        ring
      · right
        exact ⟨e2, st3, heq3, herr3⟩
    · simp only [kmerLoop, heq]
      right
      exact ⟨e, st2, rfl, herr⟩

/-- Master specification of `assemble`: on a clean return the run invariant
holds and the attempt count is kmer-sizes × library-selections; on an error
the matching `ErrOut` facts hold. -/
theorem assemble_spec (p : Params) (libraries : List Library) (oracle : Nat → Outcome)
    (fs0 : FS) (hfs0 : ∀ d b, fs0 (FName.inDir d b) = none) :
    ((∃ u st2, assemble p libraries oracle fs0 = (Except.ok u, st2) ∧
        Good p oracle st2 ∧
        st2.attempts.length =
          (if (libraries.filter (fun lib => is_nonempty_file_read lib.reads_fwd)).isEmpty
           then 0
           else (make_seq p.kmer_sizes).length *
             (if p.mode = Mode.meta
              then (libraries.filter (fun lib => is_nonempty_file_read lib.reads_fwd)).length
              else 1))) ∨
     (∃ e st2, assemble p libraries oracle fs0 = (Except.error e, st2) ∧
        ErrOut p oracle (libraries.filter (fun lib => is_nonempty_file_read lib.reads_fwd))
          st2 e)) := by
  have hG0 : Good p oracle
      ({ fs := make_empty fs0 FName.contigsOut, nextDir := 0, invocations := [],
         contigs_cumul_count := 0, warnings := [], attempts := [], history := [] } : St) := by
    refine ⟨⟨?_, ?_, ?_, ?_, ?_, ?_, ?_, ?_, ?_, ?_⟩, ?_⟩
    · simp [make_empty, fsWrite_self, flatApp]
    · intro d b
      simp only [make_empty]
      rw [fsWrite_ne _ _ _ _ (Ne.symm (contigsOut_ne_inDir _ _))]
      exact hfs0 d b
    · simp
    · simp
    · simp
    · simp
    · intro a ha
      cases ha
    · intro a ha
      cases ha
    · simp
    · intro _ a ha
      cases ha
    · simp
  by_cases hq : (libraries.filter (fun lib => is_nonempty_file_read lib.reads_fwd)).isEmpty
  · left
    refine ⟨(), { fs := make_empty fs0 FName.contigsOut
                  nextDir := 0
                  invocations := []
                  contigs_cumul_count := 0
                  warnings := [Warning.noLibraries]
                  attempts := []
                  history := [] }, ?_, ?_, ?_⟩
    · simp [assemble, hq]
    · refine ⟨⟨?_, ?_, ?_, ?_, ?_, ?_, ?_, ?_, ?_, ?_⟩, ?_⟩
      · simp [make_empty, fsWrite_self, flatApp]
      · intro d b
        simp only [make_empty]
        rw [fsWrite_ne _ _ _ _ (Ne.symm (contigsOut_ne_inDir _ _))]
        exact hfs0 d b
      · simp
      · simp
      · simp
      · simp
      · intro a ha
        cases ha
      · intro a ha
        cases ha
      · simp [isFailWarn]
      · intro _ a ha
        cases ha
      · simp
    · simp [hq]
  · rcases kmerLoop_spec p
        (libraries.filter (fun lib => is_nonempty_file_read lib.reads_fwd)) oracle
        (make_seq p.kmer_sizes) 0 _ hG0 with
      ⟨u, st2, heq, hG2, hlen⟩ | ⟨e, st2, heq, herr⟩
    · left
      refine ⟨u, st2, ?_, hG2, ?_⟩
      · simp only [assemble, hq, if_false]
        exact heq
      · rw [hlen]
        simp [hq]
    · right
      refine ⟨e, st2, ?_, herr⟩
      simp only [assemble, hq, if_false]
      exact heq

/-- The run invariant holds of the final state of every `assemble` call,
whether it returns normally or raises. -/
theorem assemble_core (p : Params) (libraries : List Library) (oracle : Nat → Outcome)
    (fs0 : FS) (hfs0 : ∀ d b, fs0 (FName.inDir d b) = none) :
    Core p oracle (assemble p libraries oracle fs0).2 := by
  rcases assemble_spec p libraries oracle fs0 hfs0 with
    ⟨u, st2, heq, hG2, _⟩ | ⟨e, st2, heq, herr⟩
  · rw [heq]
    exact hG2.toCore
  · rw [heq]
    exact herr.1

theorem getElem_eq_of_list_eq {α : Type} (l l2 : List α) (h : l = l2) (i : Nat)
    (hi : i < l.length) : l.get ⟨i, hi⟩ = l2.get ⟨i, by rw [← h]; exact hi⟩ := by
  subst h
  rfl

/-! ### The claims -/

/-- C1 (code bug): with `kmerSizes = [21, 33, 55]` and `maxKmerSizes = 2`,
even though every attempt — in particular those for k=21 and k=33 — produces
a non-empty transcripts file, the run still attempts k=55 and performs three
invocations.  Line 157 re-evaluates `is_nonempty_file(transcripts_fname)`
after the scratch directory holding that file has been removed, so the check
is always false, `kmer_sizes_succeeded` never advances, and iteration never
stops early.  The unused `this_kmer_size_succeeded` variable (lines 97/153)
and the docstring ("if this many kmer sizes succeed, do not try further
ones") show the intended behaviour, which the claim describes. -/
theorem c1_early_stop_code_bug_eval :
    pBaseW.kmer_sizes = some [21, 33, 55] ∧
    pBaseW.max_kmer_sizes = 2 ∧
    (assemble pBaseW [libW1] oracleOkW fs0W).1 = Except.ok () ∧
    (assemble pBaseW [libW1] oracleOkW fs0W).2.attempts.map (fun a => a.kmer) =
      [21, 33, 55] ∧
    (assemble pBaseW [libW1] oracleOkW fs0W).2.attempts.map (fun a => a.appended.isEmpty) =
      [false, false, false] ∧
    (assemble pBaseW [libW1] oracleOkW fs0W).2.invocations.length = 3 :=
  ⟨rfl, rfl, rfl, rfl, rfl, rfl⟩

/-- C5: when no supplied library has an existing non-empty forward-reads
file, `assemble` logs exactly the no-libraries warning, performs no external
invocation, runs no attempt, and returns normally with `contigs_out` created
and truncated to empty — this case is not an error. -/
theorem c5_no_libraries_noop (p : Params) (libraries : List Library)
    (oracle : Nat → Outcome) (fs0 : FS)
    (hnone : ∀ lib ∈ libraries, is_nonempty_file_read lib.reads_fwd = false) :
    assemble p libraries oracle fs0 =
      (Except.ok (), { fs := make_empty fs0 FName.contigsOut
                       nextDir := 0
                       invocations := []
                       contigs_cumul_count := 0
                       warnings := [Warning.noLibraries]
                       attempts := []
                       history := [] }) ∧
    make_empty fs0 FName.contigsOut FName.contigsOut = some [] := by
  have hfil : libraries.filter (fun lib => is_nonempty_file_read lib.reads_fwd) = [] := by
    refine List.filter_eq_nil_iff.mpr ?_
    intro a ha
    simp [hnone a ha]
  constructor
  · simp [assemble, hfil]
  · simp [make_empty, fsWrite_self]

/-- C10: `contigs_out` is truncated at the start of the call (line 83),
before the library filter and before any attempt: the result of `assemble`
does not depend on the file's prior contents, and the final contents are
built up from empty — exactly the concatenation of what the attempts
appended. -/
theorem c10_truncate_at_start (p : Params) (libraries : List Library)
    (oracle : Nat → Outcome) (fs0 : FS) (c0 : FileContent)
    (hfs0 : ∀ d b, fs0 (FName.inDir d b) = none) :
    assemble p libraries oracle (fsWrite fs0 FName.contigsOut c0) =
      assemble p libraries oracle fs0 ∧
    (assemble p libraries oracle fs0).2.fs FName.contigsOut =
      some (flatApp (assemble p libraries oracle fs0).2.attempts) := by
  constructor
  · have hw : make_empty (fsWrite fs0 FName.contigsOut c0) FName.contigsOut =
        make_empty fs0 FName.contigsOut := by
      funext g
      by_cases hg : g = FName.contigsOut
      · subst hg
        rw [make_empty, make_empty, fsWrite_self, fsWrite_self]
      · rw [make_empty, make_empty, fsWrite_ne _ _ _ _ hg, fsWrite_ne _ _ _ _ hg,
          fsWrite_ne _ _ _ _ hg]
    simp only [assemble, hw]
  · exact (assemble_core p libraries oracle fs0 hfs0).contigs

/-- C2: accumulation invariant.  After the initial truncation the contents of
`contigs_out` before the first attempt are `[]`; after the n-th completed
attempt (entry n of `history`) they equal the concatenation, in attempt
order, of each completed attempt's (possibly length-filtered) transcripts;
and the recorded contents only ever grow — each attempt appends and nothing
is truncated between attempts. -/
theorem c2_contigs_accumulation (p : Params) (libraries : List Library)
    (oracle : Nat → Outcome) (fs0 : FS)
    (hfs0 : ∀ d b, fs0 (FName.inDir d b) = none) :
    ((assemble p libraries oracle fs0).2.fs FName.contigsOut =
      some (flatApp (assemble p libraries oracle fs0).2.attempts)) ∧
    ((assemble p libraries oracle fs0).2.history =
      (List.range (assemble p libraries oracle fs0).2.attempts.length).map
        (fun n => flatApp ((assemble p libraries oracle fs0).2.attempts.take (n + 1)))) ∧
    (∀ i j (hi : i < (assemble p libraries oracle fs0).2.history.length)
        (hj : j < (assemble p libraries oracle fs0).2.history.length), i ≤ j →
      ∃ t, (assemble p libraries oracle fs0).2.history.get ⟨j, hj⟩ =
        (assemble p libraries oracle fs0).2.history.get ⟨i, hi⟩ ++ t) := by
  have hc := assemble_core p libraries oracle fs0 hfs0
  refine ⟨hc.contigs, hc.histEq, ?_⟩
  have hget : ∀ m (hm : m < (assemble p libraries oracle fs0).2.history.length),
      (assemble p libraries oracle fs0).2.history.get ⟨m, hm⟩ =
        flatApp ((assemble p libraries oracle fs0).2.attempts.take (m + 1)) := by
    intro m hm
    rw [getElem_eq_of_list_eq _ _ hc.histEq m hm]
    simp
  intro i j hi hj hij
  rw [hget i hi, hget j hj]
  refine ⟨flatApp (((assemble p libraries oracle fs0).2.attempts.take (j + 1)).drop (i + 1)),
    ?_⟩
  have htt : (((assemble p libraries oracle fs0).2.attempts.take (j + 1)).take (i + 1)) =
      (assemble p libraries oracle fs0).2.attempts.take (i + 1) := by
    rw [List.take_take]
    congr 1
    omega
  conv_lhs => rw [← List.take_append_drop (i + 1)
    ((assemble p libraries oracle fs0).2.attempts.take (j + 1))]
  rw [flatApp_append, htt]

/-- C3: with `always_succeed = False`, a failing invocation (or one whose
contracted transcripts file is absent) raises immediately: the failing
invocation is the last one performed (no further attempt for any remaining
library or kmer size), and `contigs_out` still holds everything the prior
completed attempts merged — no rollback.  Conversely, a clean return means
every invocation performed exited zero and produced its transcripts file. -/
theorem c3_fatal_failure_aborts (p : Params) (libraries : List Library)
    (oracle : Nat → Outcome) (fs0 : FS)
    (hfs0 : ∀ d b, fs0 (FName.inDir d b) = none)
    (haS : p.always_succeed = false) :
    ((assemble p libraries oracle fs0).1 = Except.error SpadesError.execFailed →
      (assemble p libraries oracle fs0).2.invocations.length =
        (assemble p libraries oracle fs0).2.attempts.length + 1 ∧
      oracle (assemble p libraries oracle fs0).2.attempts.length = Outcome.fails ∧
      (assemble p libraries oracle fs0).2.fs FName.contigsOut =
        some (flatApp (assemble p libraries oracle fs0).2.attempts)) ∧
    (∀ k, (assemble p libraries oracle fs0).1 =
        Except.error (SpadesError.missingTranscriptsFasta k) →
      (assemble p libraries oracle fs0).2.invocations.length =
        (assemble p libraries oracle fs0).2.attempts.length + 1 ∧
      oracle (assemble p libraries oracle fs0).2.attempts.length = Outcome.succeeds none ∧
      (assemble p libraries oracle fs0).2.fs FName.contigsOut =
        some (flatApp (assemble p libraries oracle fs0).2.attempts)) ∧
    ((assemble p libraries oracle fs0).1 = Except.ok () →
      ∀ n, n < (assemble p libraries oracle fs0).2.invocations.length →
        ∃ c, oracle n = Outcome.succeeds (some c)) := by
  rcases assemble_spec p libraries oracle fs0 hfs0 with
    ⟨u, st2, heq, hG2, _⟩ | ⟨e, st2, heq, herr⟩
  · refine ⟨?_, ?_, ?_⟩
    · intro hr
      rw [heq] at hr
      cases hr
    · intro k hr
      rw [heq] at hr
      cases hr
    · intro _ n hn
      rw [heq] at hn
      simp only at hn
      rw [hG2.invoc] at hn
      have hmem : st2.attempts.get ⟨n, hn⟩ ∈ st2.attempts := List.get_mem _ _ hn
      obtain ⟨c, hcout⟩ := hG2.clean haS _ hmem
      refine ⟨c, ?_⟩
      have h1 : (st2.attempts.map (fun a => a.outcome)).get ⟨n, by simpa using hn⟩ =
          ((List.range st2.attempts.length).map oracle).get
            ⟨n, by rw [← hG2.outcEq]; simpa using hn⟩ :=
        getElem_eq_of_list_eq _ _ hG2.outcEq n (by simpa using hn)
      simp only [List.get_eq_getElem, List.getElem_map, List.getElem_range] at h1
      rw [← h1, ← hcout]
      simp [List.get_eq_getElem]
  · refine ⟨?_, ?_, ?_⟩
    · intro hr
      rw [heq] at hr
      simp only at hr
      injection hr with hr
      subst hr
      obtain ⟨hcore, h1, h2, h3⟩ := herr
      rw [heq]
      exact ⟨h2, h3, hcore.contigs⟩
    · intro k hr
      rw [heq] at hr
      simp only at hr
      injection hr with hr
      subst hr
      obtain ⟨hcore, h1, h2, h3⟩ := herr
      rw [heq]
      exact ⟨h2, h3, hcore.contigs⟩
    · intro hr
      rw [heq] at hr
      cases hr

/-- C4: with `always_succeed = True` (and the invocation loop reachable: at
most nine libraries in rna mode, otherwise the unrelated line-104 assertion
fires before any invocation), an invocation failure is tolerated: no
exception reaches the caller, every started attempt completes (the loop
continues), each failed attempt got a synthesized empty transcripts file and
contributed zero records, and each such failure logged its warning. -/
theorem c4_always_succeed_tolerates (p : Params) (libraries : List Library)
    (oracle : Nat → Outcome) (fs0 : FS)
    (hfs0 : ∀ d b, fs0 (FName.inDir d b) = none)
    (haS : p.always_succeed = true)
    (hq9 : p.mode = Mode.rna →
      (libraries.filter (fun lib => is_nonempty_file_read lib.reads_fwd)).length ≤ 9) :
    (assemble p libraries oracle fs0).1 = Except.ok () ∧
    (assemble p libraries oracle fs0).2.invocations.length =
      (assemble p libraries oracle fs0).2.attempts.length ∧
    (∀ a ∈ (assemble p libraries oracle fs0).2.attempts, a.execFailed = true →
      a.raw = [] ∧ a.appended = []) ∧
    ((assemble p libraries oracle fs0).2.warnings.countP isFailWarn =
      (assemble p libraries oracle fs0).2.attempts.countP (fun a => a.execFailed)) := by
  rcases assemble_spec p libraries oracle fs0 hfs0 with
    ⟨u, st2, heq, hG2, _⟩ | ⟨e, st2, heq, herr⟩
  · rw [heq]
    refine ⟨rfl, hG2.invoc, ?_, hG2.warnFail⟩
    intro a ha hf
    have hraw := hG2.failRaw a ha hf
    have happ := hG2.filt a ha
    refine ⟨hraw, ?_⟩
    rw [happ, hraw]
    by_cases hmin : p.min_contig_len ≠ 0 <;> simp [attemptAppended, hmin]
  · exfalso
    cases e with
    | libIndexOverflow =>
      obtain ⟨_, hrna, hlen, _⟩ := herr
      exact absurd (hq9 hrna) (by omega)
    | execFailed =>
      obtain ⟨_, hfalse, _, _⟩ := herr
      rw [haS] at hfalse
      cases hfalse
    | missingTranscriptsFasta k =>
      obtain ⟨_, hfalse, _, _⟩ := herr
      rw [haS] at hfalse
      cases hfalse

/-- C6: with `min_contig_len = L ≠ 0`, every attempt's transcripts are parsed
and only the records of sequence length ≥ L are rewritten — to the scratch
file tagged with the cumulative attempt counter (equal to the attempt's
index) — and appended; hence every record of every attempt surviving into
`contigs_out` has length ≥ L and no shorter record ever appears there. -/
theorem c6_min_contig_len_filter (p : Params) (libraries : List Library)
    (oracle : Nat → Outcome) (fs0 : FS)
    (hfs0 : ∀ d b, fs0 (FName.inDir d b) = none)
    (hmin : p.min_contig_len ≠ 0) :
    (∀ a ∈ (assemble p libraries oracle fs0).2.attempts,
      a.appended = a.raw.filter (fun r => decide (p.min_contig_len ≤ r.seqLen))) ∧
    (∀ i (h : i < (assemble p libraries oracle fs0).2.attempts.length),
      ((assemble p libraries oracle fs0).2.attempts.get ⟨i, h⟩).filteredTag = some i) ∧
    (∀ r2 ∈ ((assemble p libraries oracle fs0).2.fs FName.contigsOut).getD [],
      p.min_contig_len ≤ r2.seqLen) := by
  have hc := assemble_core p libraries oracle fs0 hfs0
  have hfilt : ∀ a ∈ (assemble p libraries oracle fs0).2.attempts,
      a.appended = a.raw.filter (fun r => decide (p.min_contig_len ≤ r.seqLen)) := by
    intro a ha
    have := hc.filt a ha
    rwa [attemptAppended, if_pos hmin] at this
  refine ⟨hfilt, ?_, ?_⟩
  · intro i h
    have h1 : ((assemble p libraries oracle fs0).2.attempts.map
        (fun a => a.filteredTag)).get ⟨i, by simpa using h⟩ =
        ((List.range (assemble p libraries oracle fs0).2.attempts.length).map
          (fun n => if p.min_contig_len ≠ 0 then some n else none)).get
            ⟨i, by rw [← hc.tagsEq]; simpa using h⟩ :=
      getElem_eq_of_list_eq _ _ hc.tagsEq i (by simpa using h)
    simp only [List.get_eq_getElem, List.getElem_map, List.getElem_range] at h1
    rw [if_pos hmin] at h1
    simpa [List.get_eq_getElem] using h1
  · intro r2 hr2
    rw [hc.contigs] at hr2
    simp only [Option.getD_some, flatApp] at hr2
    rw [List.mem_flatten] at hr2
    obtain ⟨l, hl, hrl⟩ := hr2
    rw [List.mem_map] at hl
    obtain ⟨a, ha, rfl⟩ := hl
    rw [hfilt a ha] at hrl
    have := List.of_mem_filter hrl
    simpa using this

theorem attemptAppended_nil (p : Params) : attemptAppended p [] = [] := by
  by_cases h : p.min_contig_len ≠ 0 <;> simp [attemptAppended, h]

/-- C7: after every invocation — even one reporting success — the existence
of the contracted transcripts file is explicitly checked (line 131).  When
the invocation "succeeds" but the file is absent: with `always_succeed` set,
an empty file is synthesized, a warning naming the kmer size is logged, and
the attempt completes contributing zero records; with `always_succeed`
clear, the attempt aborts with the distinct error that names the missing
kmer size (not the invocation-failure error). -/
theorem c7_missing_output_check (p : Params) (qualified : List Library)
    (sel : Option Library) (kmer : Nat) (oracle : Nat → Outcome) (d : Nat) (st : St)
    (libArgs : List Arg) (out : FileContent)
    (hargs : buildLibArgs (if p.mode = Mode.rna then qualified else sel.toList) 0 =
      Except.ok libArgs)
    (hscr : ∀ d2 b, st.fs (FName.inDir d2 b) = none)
    (hout : st.fs FName.contigsOut = some out)
    (hmiss : oracle st.invocations.length = Outcome.succeeds none) :
    (p.always_succeed = true →
      ∃ tf st2, attemptBody p qualified sel kmer oracle d st = (Except.ok tf, st2) ∧
        st2.warnings = st.warnings ++ [Warning.missingTranscripts kmer] ∧
        ∃ a, st2.attempts = st.attempts ++ [a] ∧ a.raw = [] ∧ a.appended = []) ∧
    (p.always_succeed = false →
      attemptBody p qualified sel kmer oracle d st =
        (Except.error (SpadesError.missingTranscriptsFasta kmer),
         { st with invocations := st.invocations ++ [mkArgs p libArgs kmer d] }) ∧
      (∀ k2, SpadesError.missingTranscriptsFasta k2 ≠ SpadesError.execFailed)) := by
  rw [attemptBody_eq p qualified sel kmer oracle d st libArgs hargs (fun b => hscr d b)]
  constructor
  · intro haS
    simp only [hmiss, haS, if_true]
    have hraw2 : (fsWrite st.fs (FName.inDir d (transcriptsBase p.mode p.filter_contigs)) [])
        (FName.inDir d (transcriptsBase p.mode p.filter_contigs)) = some [] :=
      fsWrite_self _ _ _
    have hout2 : (fsWrite st.fs (FName.inDir d (transcriptsBase p.mode p.filter_contigs)) [])
        FName.contigsOut = some out := by
      rw [fsWrite_ne _ _ _ _ (contigsOut_ne_inDir _ _)]
      exact hout
    have hfresh2 : ∀ b2, b2 ≠ transcriptsBase p.mode p.filter_contigs →
        (fsWrite st.fs (FName.inDir d (transcriptsBase p.mode p.filter_contigs)) [])
          (FName.inDir d b2) = none := by
      intro b2 hb
      rw [fsWrite_ne _ _ _ _ ((inDir_ne_iff _ _ _ _).mpr (Or.inr hb))]
      exact hscr _ _
    obtain ⟨e1, e2, e3, e4, e5, e6, e7, e8, e9, e10⟩ :=
      filterAndMerge_spec p d (transcriptsBase p.mode p.filter_contigs) kmer
        (Outcome.succeeds none) false
        ({ st with
            invocations := st.invocations ++ [mkArgs p libArgs kmer d]
            fs := fsWrite st.fs (FName.inDir d (transcriptsBase p.mode p.filter_contigs)) []
            warnings := st.warnings ++ [Warning.missingTranscripts kmer] })
        [] out hraw2 hout2 hfresh2
        (transcriptsBase_ne_overBp _ _) (transcriptsBase_ne_cumul _ _)
    refine ⟨_, _, rfl, ?_, ?_⟩
    · exact e8
    · refine ⟨_, e9, ?_, ?_⟩
      · rfl
      · exact attemptAppended_nil p
  · intro haS
    simp only [hmiss, haS, Bool.false_eq_true, if_false]
    refine ⟨?_, fun k2 h => SpadesError.noConfusion h⟩
    trivial

/-- C8 counterexample: two qualifying libraries, `kmerSizes = [21]`, meta
mode, `alwaysSucceed = false`, first invocation fails — the call aborts after
exactly one external invocation, not the two the claim asserts for every
call. -/
theorem c8_counterexample :
    pMetaW.mode = Mode.meta ∧
    pMetaW.kmer_sizes = some [21] ∧
    (assemble pMetaW [libW1, libW2] oracleFailW fs0W).1 =
      Except.error SpadesError.execFailed ∧
    (assemble pMetaW [libW1, libW2] oracleFailW fs0W).2.invocations.length = 1 :=
  ⟨rfl, rfl, rfl, rfl⟩

/-- C8 (amended): for every call with exactly two qualifying libraries and
`kmerSizes = [21]`, provided no attempt aborts the run (`alwaysSucceed`
set, or every invocation exits zero and produces its transcripts file):
in meta mode exactly two external invocations occur — one per library, in
order, each submitted as the single paired-end library numbered `--pe1` —
and in rna mode exactly one invocation occurs, with the two libraries
submitted together, numbered `--pe1` and `--pe2`. -/
theorem c8_attempt_counts_amended (p : Params) (libraries : List Library)
    (oracle : Nat → Outcome) (fs0 : FS) (la lb : Library)
    (hfs0 : ∀ d b, fs0 (FName.inDir d b) = none)
    (hfilter : libraries.filter (fun lib => is_nonempty_file_read lib.reads_fwd) = [la, lb])
    (hks : p.kmer_sizes = some [21])
    (hoks : ∀ n, p.always_succeed = true ∨ ∃ c, oracle n = Outcome.succeeds (some c)) :
    (p.mode = Mode.meta →
      (assemble p libraries oracle fs0).2.invocations =
        [mkArgs p (peArgs 0 la) 21 0, mkArgs p (peArgs 0 lb) 21 1]) ∧
    (p.mode = Mode.rna →
      (assemble p libraries oracle fs0).2.invocations =
        [mkArgs p (peArgs 0 la ++ peArgs 1 lb) 21 0]) := by
  have hassemble : assemble p libraries oracle fs0 =
      kmerLoop p [la, lb] oracle [21] 0
        { fs := make_empty fs0 FName.contigsOut
          nextDir := 0
          invocations := []
          contigs_cumul_count := 0
          warnings := []
          attempts := []
          history := [] } := by
    simp [assemble, hfilter, hks, make_seq]
  have hscr0 : ∀ d2 b,
      (make_empty fs0 FName.contigsOut) (FName.inDir d2 b) = none := by
    intro d2 b
    rw [make_empty, fsWrite_ne _ _ _ _ (Ne.symm (contigsOut_ne_inDir _ _))]
    exact hfs0 d2 b
  have hout0 : (make_empty fs0 FName.contigsOut) FName.contigsOut = some [] := by
    rw [make_empty, fsWrite_self]
  constructor
  · intro hmode
    rw [hassemble]
    set S0 : St := { fs := make_empty fs0 FName.contigsOut
                     nextDir := 0
                     invocations := []
                     contigs_cumul_count := 0
                     warnings := []
                     attempts := []
                     history := [] } with hS0
    simp only [kmerLoop, hmode, reduceIte, List.map_cons, List.map_nil]
    have hargs1 : buildLibArgs
        (if p.mode = Mode.rna then [la, lb] else (some la).toList) 0 =
        Except.ok (peArgs 0 la) := by
      rw [hmode]
      simp [buildLibArgs]
    have hscr0S : ∀ d2 b, S0.fs (FName.inDir d2 b) = none := hscr0
    have hout0S : S0.fs FName.contigsOut = some [] := hout0
    rw [libLoop_cons_ok p [la, lb] oracle 21 (some la) [some lb] false none S0 []
      (peArgs 0 la) hscr0S hout0S hargs1 (hoks 0)]
    have hlen0 : S0.invocations.length = 0 := rfl
    rw [hlen0]
    set S1 : St := stepSt p 21 (peArgs 0 la) [] (oracle 0) S0 with hS1
    have hscr1 : ∀ d2 b, S1.fs (FName.inDir d2 b) = none := by
      intro d2 b
      rw [hS1]
      simp only [stepSt]
      rw [fsWrite_ne _ _ _ _ (Ne.symm (contigsOut_ne_inDir _ _))]
      exact hscr0 d2 b
    have hout1 : S1.fs FName.contigsOut =
        some ([] ++ attemptAppended p (attemptRaw (oracle 0))) := by
      rw [hS1]
      simp only [stepSt]
      exact fsWrite_self _ _ _
    have hargs2 : buildLibArgs
        (if p.mode = Mode.rna then [la, lb] else (some lb).toList) 0 =
        Except.ok (peArgs 0 lb) := by
      rw [hmode]
      simp [buildLibArgs]
    have hlen1 : S1.invocations.length = 1 := by
      rw [hS1]
      simp [stepSt]
    rw [libLoop_cons_ok p [la, lb] oracle 21 (some lb) [] _ _ S1 _ (peArgs 0 lb)
      hscr1 hout1 hargs2 (by rw [hlen1]; exact hoks 1)]
    rw [hlen1]
    set S2 : St := stepSt p 21 (peArgs 0 lb)
      ([] ++ attemptAppended p (attemptRaw (oracle 0))) (oracle 1) S1 with hS2
    have hfalse : is_nonempty_file_fs S2.fs
        (finalTName p S1.nextDir S1.contigs_cumul_count) = false := by
      obtain ⟨bb, hbb⟩ := finalTName_inDir p S1.nextDir S1.contigs_cumul_count
      rw [hbb]
      refine is_nonempty_file_fs_of_none _ _ ?_
      rw [hS2]
      simp only [stepSt]
      rw [fsWrite_ne _ _ _ _ (Ne.symm (contigsOut_ne_inDir _ _))]
      exact hscr1 _ _
    simp only [libLoop, hfalse, Bool.false_eq_true, if_false, kmerLoop]
    rw [hS2, hS1]
    simp [stepSt, hS0]
  · intro hmode
    rw [hassemble]
    set S0 : St := { fs := make_empty fs0 FName.contigsOut
                     nextDir := 0
                     invocations := []
                     contigs_cumul_count := 0
                     warnings := []
                     attempts := []
                     history := [] } with hS0
    have hmRne : (Mode.rna = Mode.meta) = False := by simp
    simp only [kmerLoop, hmode, hmRne, if_false]
    have hargs1 : buildLibArgs
        (if p.mode = Mode.rna then [la, lb] else (Option.toList (none : Option Library))) 0 =
        Except.ok (peArgs 0 la ++ peArgs 1 lb) := by
      rw [hmode]
      simp [buildLibArgs]
    have hscr0S : ∀ d2 b, S0.fs (FName.inDir d2 b) = none := hscr0
    have hout0S : S0.fs FName.contigsOut = some [] := hout0
    rw [libLoop_cons_ok p [la, lb] oracle 21 none [] false none S0 []
      (peArgs 0 la ++ peArgs 1 lb) hscr0S hout0S hargs1 (hoks 0)]
    have hlen0 : S0.invocations.length = 0 := rfl
    rw [hlen0]
    set S1 : St := stepSt p 21 (peArgs 0 la ++ peArgs 1 lb) [] (oracle 0) S0 with hS1
    have hfalse : is_nonempty_file_fs S1.fs
        (finalTName p S0.nextDir S0.contigs_cumul_count) = false := by
      obtain ⟨bb, hbb⟩ := finalTName_inDir p S0.nextDir S0.contigs_cumul_count
      rw [hbb]
      refine is_nonempty_file_fs_of_none _ _ ?_
      rw [hS1]
      simp only [stepSt]
      rw [fsWrite_ne _ _ _ _ (Ne.symm (contigsOut_ne_inDir _ _))]
      exact hscr0 _ _
    simp only [libLoop, hfalse, Bool.false_eq_true, if_false, kmerLoop]
    rw [hS1]
    simp [stepSt, hS0]

/-- C9 counterexample: the universal claim fails on the empty kmer-size
list — with ten qualifying libraries in rna mode but `kmerSizes = []`, the
loop body never runs, so the assertion never fires and the call returns
normally with zero invocations instead of failing fatally. -/
theorem c9_counterexample :
    pEmptyKsW.mode = Mode.rna ∧
    (libs10W.filter (fun lib => is_nonempty_file_read lib.reads_fwd)).length = 10 ∧
    (assemble pEmptyKsW libs10W oracleFailW fs0W).1 = Except.ok () ∧
    (assemble pEmptyKsW libs10W oracleFailW fs0W).2.invocations = [] :=
  ⟨rfl, rfl, rfl, rfl⟩

/-- C9 (amended): provided at least one kmer size is iterated (the list is
non-empty, or absent meaning auto), a call in rna mode with more than nine
qualifying libraries fails with the line-104 assertion before any external
invocation occurs, independently of `alwaysSucceed`; calls with at most nine
qualifying libraries never trip this bound, and meta mode imposes no such
library-count limit. -/
theorem c9_library_bound_amended (p : Params) (libraries : List Library)
    (oracle : Nat → Outcome) (fs0 : FS)
    (hfs0 : ∀ d b, fs0 (FName.inDir d b) = none) :
    (p.mode = Mode.rna →
      9 < (libraries.filter (fun lib => is_nonempty_file_read lib.reads_fwd)).length →
      make_seq p.kmer_sizes ≠ [] →
      (assemble p libraries oracle fs0).1 = Except.error SpadesError.libIndexOverflow ∧
      (assemble p libraries oracle fs0).2.invocations = []) ∧
    ((libraries.filter (fun lib => is_nonempty_file_read lib.reads_fwd)).length ≤ 9 →
      (assemble p libraries oracle fs0).1 ≠ Except.error SpadesError.libIndexOverflow) ∧
    (p.mode = Mode.meta →
      (assemble p libraries oracle fs0).1 ≠ Except.error SpadesError.libIndexOverflow) := by
  refine ⟨?_, ?_, ?_⟩
  · intro hrna hlen hks
    have hne : ¬ ((libraries.filter
        (fun lib => is_nonempty_file_read lib.reads_fwd)).isEmpty = true) := by
      intro h
      rw [List.isEmpty_iff] at h
      rw [h] at hlen
      simp at hlen
    rcases hksv : make_seq p.kmer_sizes with _ | ⟨k, rest⟩
    · exact absurd hksv hks
    · have hrun : assemble p libraries oracle fs0 =
          (Except.error SpadesError.libIndexOverflow,
           { fs := make_empty fs0 FName.contigsOut
             nextDir := 1
             invocations := []
             contigs_cumul_count := 0
             warnings := []
             attempts := []
             history := [] }) := by
        have hargs : buildLibArgs
            (if p.mode = Mode.rna
             then libraries.filter (fun lib => is_nonempty_file_read lib.reads_fwd)
             else (Option.toList (none : Option Library))) 0 =
            Except.error SpadesError.libIndexOverflow := by
          rw [hrna]
          simp only [reduceIte]
          exact buildLibArgs_overflow _ _ (by omega) (by omega)
        have hscr0 : ∀ d2 b,
            (make_empty fs0 FName.contigsOut) (FName.inDir d2 b) = none := by
          intro d2 b
          rw [make_empty, fsWrite_ne _ _ _ _ (Ne.symm (contigsOut_ne_inDir _ _))]
          exact hfs0 d2 b
        have hmRne : (Mode.rna = Mode.meta) = False := by simp
        simp only [assemble, hne, Bool.false_eq_true, if_false]
        rw [hksv]
        simp only [kmerLoop, hrna, hmRne, if_false]
        rw [libLoop_cons_overflow p _ oracle k none [] false none _
          SpadesError.libIndexOverflow hscr0 hargs]
      rw [hrun]
      exact ⟨rfl, rfl⟩
  · intro hlen9 hcontra
    rcases assemble_spec p libraries oracle fs0 hfs0 with
      ⟨u, st2, heq, _, _⟩ | ⟨e, st2, heq, herr⟩
    · rw [heq] at hcontra
      cases hcontra
    · rw [heq] at hcontra
      simp only at hcontra
      injection hcontra with hcontra
      subst hcontra
      obtain ⟨_, _, h9, _⟩ := herr
      omega
  · intro hmeta hcontra
    rcases assemble_spec p libraries oracle fs0 hfs0 with
      ⟨u, st2, heq, _, _⟩ | ⟨e, st2, heq, herr⟩
    · rw [heq] at hcontra
      cases hcontra
    · rw [heq] at hcontra
      simp only at hcontra
      injection hcontra with hcontra
      subst hcontra
      obtain ⟨_, hrna, _, _⟩ := herr
      rw [hmeta] at hrna
      cases hrna

/-! ### Witnesses: the theorems above applied at concrete inputs -/

theorem c2_contigs_accumulation_witness :
    (assemble pBaseW [libW1] oracleOkW fs0W).2.fs FName.contigsOut =
      some (flatApp (assemble pBaseW [libW1] oracleOkW fs0W).2.attempts) ∧
    (assemble pBaseW [libW1] oracleOkW fs0W).2.history =
      (List.range (assemble pBaseW [libW1] oracleOkW fs0W).2.attempts.length).map
        (fun n => flatApp ((assemble pBaseW [libW1] oracleOkW fs0W).2.attempts.take (n + 1))) :=
  ⟨(c2_contigs_accumulation pBaseW [libW1] oracleOkW fs0W (fun _ _ => rfl)).1,
   (c2_contigs_accumulation pBaseW [libW1] oracleOkW fs0W (fun _ _ => rfl)).2.1⟩

theorem c3_fatal_failure_aborts_witness :
    (assemble pBaseW [libW1] oracleFail1W fs0W).2.invocations.length =
      (assemble pBaseW [libW1] oracleFail1W fs0W).2.attempts.length + 1 ∧
    oracleFail1W (assemble pBaseW [libW1] oracleFail1W fs0W).2.attempts.length =
      Outcome.fails ∧
    (assemble pBaseW [libW1] oracleFail1W fs0W).2.fs FName.contigsOut =
      some (flatApp (assemble pBaseW [libW1] oracleFail1W fs0W).2.attempts) :=
  (c3_fatal_failure_aborts pBaseW [libW1] oracleFail1W fs0W (fun _ _ => rfl) rfl).1 rfl

theorem c4_always_succeed_tolerates_witness :
    (assemble pTolerantW [libW1] oracleFail1W fs0W).1 = Except.ok () ∧
    (assemble pTolerantW [libW1] oracleFail1W fs0W).2.invocations.length =
      (assemble pTolerantW [libW1] oracleFail1W fs0W).2.attempts.length ∧
    (assemble pTolerantW [libW1] oracleFail1W fs0W).2.warnings.countP isFailWarn =
      (assemble pTolerantW [libW1] oracleFail1W fs0W).2.attempts.countP
        (fun a => a.execFailed) :=
  ⟨(c4_always_succeed_tolerates pTolerantW [libW1] oracleFail1W fs0W (fun _ _ => rfl) rfl
      (fun _ => by decide)).1,
   (c4_always_succeed_tolerates pTolerantW [libW1] oracleFail1W fs0W (fun _ _ => rfl) rfl
      (fun _ => by decide)).2.1,
   (c4_always_succeed_tolerates pTolerantW [libW1] oracleFail1W fs0W (fun _ _ => rfl) rfl
      (fun _ => by decide)).2.2.2⟩

theorem c5_no_libraries_noop_witness :
    assemble pBaseW [libW0] oracleOkW fs0W =
      (Except.ok (), { fs := make_empty fs0W FName.contigsOut
                       nextDir := 0
                       invocations := []
                       contigs_cumul_count := 0
                       warnings := [Warning.noLibraries]
                       attempts := []
                       history := [] }) ∧
    make_empty fs0W FName.contigsOut FName.contigsOut = some [] :=
  c5_no_libraries_noop pBaseW [libW0] oracleOkW fs0W (by decide)

theorem c6_min_contig_len_filter_witness :
    pMinLenW.min_contig_len ≠ 0 ∧
    ((assemble pMinLenW [libW1] oracleMixW fs0W).2.attempts.get
      ⟨0, by decide⟩).filteredTag = some 0 :=
  ⟨by decide,
   (c6_min_contig_len_filter pMinLenW [libW1] oracleMixW fs0W (fun _ _ => rfl)
      (by decide)).2.1 0 (by decide)⟩

theorem c7_missing_output_check_witness :
    attemptBody pBaseW [libW1] none 21 oracleMissW 0 st0W =
      (Except.error (SpadesError.missingTranscriptsFasta 21),
       { st0W with invocations := st0W.invocations ++ [mkArgs pBaseW (peArgs 0 libW1) 21 0] }) :=
  ((c7_missing_output_check pBaseW [libW1] none 21 oracleMissW 0 st0W (peArgs 0 libW1) []
    rfl (fun _ _ => rfl) rfl rfl).2 rfl).1

theorem c8_attempt_counts_amended_witness :
    (assemble pMetaW [libW1, libW2] oracleOkW fs0W).2.invocations =
      [mkArgs pMetaW (peArgs 0 libW1) 21 0, mkArgs pMetaW (peArgs 0 libW2) 21 1] :=
  (c8_attempt_counts_amended pMetaW [libW1, libW2] oracleOkW fs0W libW1 libW2
    (fun _ _ => rfl) rfl rfl (fun _ => Or.inr ⟨[⟨0, 100⟩], rfl⟩)).1 rfl

theorem c9_library_bound_amended_witness :
    (assemble pRnaW libs10W oracleFailW fs0W).1 =
      Except.error SpadesError.libIndexOverflow ∧
    (assemble pRnaW libs10W oracleFailW fs0W).2.invocations = [] :=
  (c9_library_bound_amended pRnaW libs10W oracleFailW fs0W (fun _ _ => rfl)).1 rfl
    (by decide) (by decide)

theorem c10_truncate_at_start_witness :
    assemble pBaseW [libW1] oracleOkW (fsWrite fs0W FName.contigsOut [⟨9, 9⟩]) =
      assemble pBaseW [libW1] oracleOkW fs0W ∧
    (assemble pBaseW [libW1] oracleOkW fs0W).2.fs FName.contigsOut =
      some (flatApp (assemble pBaseW [libW1] oracleOkW fs0W).2.attempts) :=
  c10_truncate_at_start pBaseW [libW1] oracleOkW fs0W [⟨9, 9⟩] (fun _ _ => rfl)

end SpadesVerify
